import Mathlib

/-!
Verification of the Tiny16 toolchain (`tiny.cpp`): a 16-bit CPU emulator with
memory-mapped devices, and a two-pass assembler.  The definitions below are a
shallow embedding of the C++ source: machine integers become `Nat` with
explicit `% 2^w` at the points where the C++ types truncate, the byte array
and register file become functions `Nat → Nat`, C++ exceptions become
`Except String`, and the `cout`/`cerr` side effects become explicit state
(the `uart` list, the `diag` field).
-/

namespace Tiny16

/-! ## Memory with MMIO (`struct Memory`) -/

structure Mem where
  mem : Nat → Nat          -- array<uint8_t, 65536>
  timer : Nat              -- uint16_t
  timercmp : Nat           -- uint16_t
  irq_pending : Bool
  uart : List Nat          -- bytes written to UART_OUT (the cout side effect)

/-- `Memory::mmio_read`. -/
def Mem.mmio_read (m : Mem) (addr : Nat) : Nat :=
  if addr = 0xFF00 then 0
  else if addr = 0xFF01 then 0xFF
  else if addr = 0xFF10 then m.timer &&& 0xFF
  else if addr = 0xFF11 then (m.timer >>> 8) &&& 0xFF
  else if addr = 0xFF12 then m.timercmp &&& 0xFF
  else if addr = 0xFF13 then (m.timercmp >>> 8) &&& 0xFF
  else if addr = 0xFF14 then (if m.irq_pending then 1 else 0)
  else 0

/-- `Memory::mmio_write`.  The UART write (a `cout` in the source) is recorded
in the `uart` list. -/
def Mem.mmio_write (m : Mem) (addr val : Nat) : Mem :=
  if addr = 0xFF00 then { m with uart := m.uart ++ [val] }
  else if addr = 0xFF10 then { m with timer := (m.timer &&& 0xFF00) ||| val }
  else if addr = 0xFF11 then { m with timer := (m.timer &&& 0x00FF) ||| (val <<< 8) }
  else if addr = 0xFF12 then { m with timercmp := (m.timercmp &&& 0xFF00) ||| val }
  else if addr = 0xFF13 then { m with timercmp := (m.timercmp &&& 0x00FF) ||| (val <<< 8) }
  else if addr = 0xFF14 then (if val = 1 then { m with irq_pending := false } else m)
  else m

/-- `Memory::read8`.  The `% 65536` is the `uint16_t addr` parameter, the
`% 256` the `uint8_t` return type. -/
def Mem.read8 (m : Mem) (addr : Nat) : Nat :=
  (if 0xFF00 ≤ addr % 65536 then m.mmio_read (addr % 65536) else m.mem (addr % 65536)) % 256

/-- `Memory::read16` (`lo` then `hi = read8(addr + 1)`); the outer `% 65536`
is the `uint16_t` return cast. -/
def Mem.read16 (m : Mem) (addr : Nat) : Nat :=
  ((m.read8 (addr % 65536 + 1) <<< 8) ||| m.read8 (addr % 65536)) % 65536

/-- `Memory::write8`; `% 65536` / `% 256` are the parameter types. -/
def Mem.write8 (m : Mem) (addr val : Nat) : Mem :=
  if 0xFF00 ≤ addr % 65536 then m.mmio_write (addr % 65536) (val % 256)
  else { m with mem := fun i => if i = addr % 65536 then val % 256 else m.mem i }

/-- `Memory::write16` (little-endian). -/
def Mem.write16 (m : Mem) (addr val : Nat) : Mem :=
  (m.write8 addr (val &&& 0xFF)).write8 (addr + 1) ((val >>> 8) &&& 0xFF)

/-- `Memory::tick`: advance the free-running timer, latch `irq_pending` when
the (nonzero) compare value is reached. -/
def Mem.tick (m : Mem) : Mem :=
  { m with
    timer := (m.timer + 1) % 65536
    irq_pending :=
      if 0 < m.timercmp ∧ m.timercmp ≤ (m.timer + 1) % 65536 then true else m.irq_pending }

/-! ## CPU core (`struct CPU`) -/

structure ALUOut where
  res : Nat
  Z : Bool
  N : Bool
  C : Bool
  V : Bool
deriving DecidableEq

/-- `CPU::setZN`, zero flag. -/
def flagZ (res : Nat) : Bool := res == 0

/-- `CPU::setZN`, negative flag (`(res & 0x8000) != 0`). -/
def flagN (res : Nat) : Bool := (res &&& 0x8000) != 0

/-- `CPU::add16`.  `a`/`b` are `uint16_t` parameters (hence the entry `%`),
`w` is the `uint32_t` sum.  In `~(a ^ b) & (a ^ res)` the `~` acts on the
`int` promotion, but the `&` with `(a ^ res) < 2^16` discards all bits above
bit 15, so the complement is taken on 16 bits here. -/
def add16 (a0 b0 : Nat) : ALUOut :=
  let a := a0 % 65536
  let b := b0 % 65536
  let w := (a + b) % 4294967296
  let res := w % 65536
  { res := res
    Z := flagZ res
    N := flagN res
    C := ((w >>> 16) &&& 1) != 0
    V := ((((a ^^^ b) ^^^ 0xFFFF) &&& (a ^^^ res)) >>> 15) &&& 1 != 0 }

/-- `CPU::sub16`.  In the source, `w = (uint32_t)a + (uint32_t)(~b) + 1`:
`b` is promoted to `int` before `~`, so the cast keeps the 16 high bits set
and `(uint32_t)(~b)` has the value `2^32 - 1 - b`. -/
def sub16 (a0 b0 : Nat) : ALUOut :=
  let a := a0 % 65536
  let b := b0 % 65536
  let w := (a + (4294967295 - b) + 1) % 4294967296
  let res := w % 65536
  { res := res
    Z := flagZ res
    N := flagN res
    C := ((w >>> 16) &&& 1) != 0      -- the source comment says: carry = !borrow
    V := ((((a ^^^ b) &&& (a ^^^ res)) >>> 15) &&& 1) != 0 }

structure CPU where
  mem : Mem
  R : Nat → Nat            -- uint16_t R[8]
  PC : Nat                 -- uint16_t
  Z : Bool
  N : Bool
  C : Bool
  V : Bool
  halted : Bool
  diag : Option (Nat × Int)   -- the cerr diagnostic of the default case: (opcode, PC - 2)

/-- Store into the register file; the stored value is what the `uint16_t`
slot receives. -/
def updR (R : Nat → Nat) (i v : Nat) : Nat → Nat :=
  fun j => if j = i then v else R j

/-- `(uint16_t)(int16_t)simm8` for `imm8 < 256`. -/
def sext8 (x : Nat) : Nat := if x < 128 then x else x + 65280

/-- Applied to the result of every non-halted step: the final `mem.tick()`. -/
def tickEnd (t : CPU) : CPU := { t with mem := t.mem.tick }

/-- The body of the `switch (opcode)` in `CPU::exec`, one arm per case,
acting on the state `s1` in which the opcode word has already been fetched
(`PC` advanced by 2).  Register/`PC` assignments carry an explicit `% 65536`
where the C++ `uint16_t` store truncates. -/
def execOp (opcode rd rs1 imm3 insn : Nat) (s1 : CPU) : CPU :=
  if opcode = 0x00 then s1                                       -- NOP
  else if opcode = 0x01 then { s1 with halted := true }          -- HALT
  else if opcode = 0x02 then                                                      -- LDI rd, imm16
    let w := s1.mem.read16 s1.PC
    let s2 : CPU := { s1 with PC := (s1.PC + 2) % 65536 }
    let v := w % 65536
    { s2 with R := updR s2.R rd v, Z := flagZ v, N := flagN v, C := false, V := false }
  else if opcode = 0x03 then                                                      -- MOV rd, rs1
    let v := s1.R rs1 % 65536
    { s1 with R := updR s1.R rd v, Z := flagZ v, N := flagN v, C := false, V := false }
  else if opcode = 0x04 then                                                      -- ADD rd, rs1
    let r := add16 (s1.R rd) (s1.R rs1)
    { s1 with R := updR s1.R rd r.res, Z := r.Z, N := r.N, C := r.C, V := r.V }
  else if opcode = 0x05 then                                                      -- SUB rd, rs1
    let r := sub16 (s1.R rd) (s1.R rs1)
    { s1 with R := updR s1.R rd r.res, Z := r.Z, N := r.N, C := r.C, V := r.V }
  else if opcode = 0x06 then                                                      -- AND rd, rs1
    let v := (s1.R rd &&& s1.R rs1) % 65536
    { s1 with R := updR s1.R rd v, Z := flagZ v, N := flagN v, C := false, V := false }
  else if opcode = 0x07 then                                                      -- OR rd, rs1
    let v := (s1.R rd ||| s1.R rs1) % 65536
    { s1 with R := updR s1.R rd v, Z := flagZ v, N := flagN v, C := false, V := false }
  else if opcode = 0x08 then                                                      -- XOR rd, rs1
    let v := (s1.R rd ^^^ s1.R rs1) % 65536
    { s1 with R := updR s1.R rd v, Z := flagZ v, N := flagN v, C := false, V := false }
  else if opcode = 0x09 then                                                      -- NOT rd
    -- (uint16_t)(~x) = 2^16 - 1 - x for a uint16_t slot value x
    let v := 65535 - s1.R rd % 65536
    { s1 with R := updR s1.R rd v, Z := flagZ v, N := flagN v, C := false, V := false }
  else if opcode = 0x0A then                                                      -- SHL rd, imm3
    let sh := imm3 &&& 7
    if sh ≠ 0 then
      let c := ((s1.R rd >>> (16 - sh)) &&& 1) != 0
      let v := (s1.R rd <<< sh) % 65536
      { s1 with R := updR s1.R rd v, Z := flagZ v, N := flagN v, C := c, V := false }
    else
      { s1 with Z := flagZ (s1.R rd), N := flagN (s1.R rd), C := false, V := false }
  else if opcode = 0x0B then                                                      -- SHR rd, imm3
    let sh := imm3 &&& 7
    if sh ≠ 0 then
      let c := ((s1.R rd >>> (sh - 1)) &&& 1) != 0
      let v := (s1.R rd >>> sh) % 65536
      { s1 with R := updR s1.R rd v, Z := flagZ v, N := flagN v, C := c, V := false }
    else
      { s1 with Z := flagZ (s1.R rd), N := flagN (s1.R rd), C := false, V := false }
  else if opcode = 0x0C then                                                      -- ADDI rd, imm8
    let r := add16 (s1.R rd) (sext8 (insn &&& 0xFF))
    { s1 with R := updR s1.R rd r.res, Z := r.Z, N := r.N, C := r.C, V := r.V }
  else if opcode = 0x0D then                                                      -- CMPI rd, imm8
    let r := sub16 (s1.R rd) (sext8 (insn &&& 0xFF))
    { s1 with Z := r.Z, N := r.N, C := r.C, V := r.V }
  else if opcode = 0x0E then                                                      -- CMP rd, rs1
    let r := sub16 (s1.R rd) (s1.R rs1)
    { s1 with Z := r.Z, N := r.N, C := r.C, V := r.V }
  else if opcode = 0x0F then                                                      -- LD rd, [addr16]
    let w := s1.mem.read16 s1.PC
    let s2 : CPU := { s1 with PC := (s1.PC + 2) % 65536 }
    let v := s2.mem.read16 w
    { s2 with R := updR s2.R rd v, Z := flagZ v, N := flagN v, C := false, V := false }
  else if opcode = 0x10 then                                                      -- ST rs1, [addr16]
    let w := s1.mem.read16 s1.PC
    let s2 : CPU := { s1 with PC := (s1.PC + 2) % 65536 }
    { s2 with mem := s2.mem.write16 w (s2.R rs1) }
  else if opcode = 0x11 then                                                      -- LDB rd, [addr16]
    let w := s1.mem.read16 s1.PC
    let s2 : CPU := { s1 with PC := (s1.PC + 2) % 65536 }
    let v := s2.mem.read8 w
    { s2 with R := updR s2.R rd v, Z := flagZ v, N := flagN v, C := false, V := false }
  else if opcode = 0x12 then                                                      -- STB rs1, [addr16]
    let w := s1.mem.read16 s1.PC
    let s2 : CPU := { s1 with PC := (s1.PC + 2) % 65536 }
    { s2 with mem := s2.mem.write8 w (s2.R rs1 &&& 0xFF) }
  else if opcode = 0x13 then                                                      -- LD rd, [rb+imm5]
    -- sign-extended 5-bit displacement added to a uint16_t: -32 becomes +65504
    let imm5 := insn &&& 0x1F
    let disp := if imm5 &&& 0x10 = 0 then imm5 else imm5 + 65504
    let addr := (s1.R rs1 + disp) % 65536
    let v := s1.mem.read16 addr
    { s1 with R := updR s1.R rd v, Z := flagZ v, N := flagN v, C := false, V := false }
  else if opcode = 0x14 then                                                      -- ST rs1, [rb+imm5] (rb=rd)
    let imm5 := insn &&& 0x1F
    let disp := if imm5 &&& 0x10 = 0 then imm5 else imm5 + 65504
    let addr := (s1.R rd + disp) % 65536
    { s1 with mem := s1.mem.write16 addr (s1.R rs1) }
  else if opcode = 0x15 then                                                      -- JMP addr16
    let w := s1.mem.read16 s1.PC
    let s2 : CPU := { s1 with PC := (s1.PC + 2) % 65536 }
    { s2 with PC := w }
  else if opcode = 0x16 then                                                      -- JZ addr16
    let w := s1.mem.read16 s1.PC
    let s2 : CPU := { s1 with PC := (s1.PC + 2) % 65536 }
    if s2.Z then { s2 with PC := w } else s2
  else if opcode = 0x17 then                                                      -- JNZ addr16
    let w := s1.mem.read16 s1.PC
    let s2 : CPU := { s1 with PC := (s1.PC + 2) % 65536 }
    if !s2.Z then { s2 with PC := w } else s2
  else if opcode = 0x18 then                                                      -- JC addr16
    let w := s1.mem.read16 s1.PC
    let s2 : CPU := { s1 with PC := (s1.PC + 2) % 65536 }
    if s2.C then { s2 with PC := w } else s2
  else if opcode = 0x19 then                                                      -- JN addr16
    let w := s1.mem.read16 s1.PC
    let s2 : CPU := { s1 with PC := (s1.PC + 2) % 65536 }
    if s2.N then { s2 with PC := w } else s2
  else if opcode = 0x1A then                                                      -- CALL addr16
    let w := s1.mem.read16 s1.PC
    let s2 : CPU := { s1 with PC := (s1.PC + 2) % 65536 }
    -- push16(PC): R7 -= 2 then write the return address at the new R7
    let sp := (s2.R 7 + 65534) % 65536
    { s2 with R := updR s2.R 7 sp, mem := s2.mem.write16 sp s2.PC, PC := w }
  else if opcode = 0x1B then                                                      -- RET
    -- pop16(): read at R7 then R7 += 2
    let v := s1.mem.read16 (s1.R 7)
    { s1 with PC := v, R := updR s1.R 7 ((s1.R 7 + 2) % 65536) }
  else if opcode = 0x1C then                                                      -- IN rd, [io]
    let w := s1.mem.read16 s1.PC
    let s2 : CPU := { s1 with PC := (s1.PC + 2) % 65536 }
    let v := if 0xFF00 <= w then s2.mem.read8 w else s2.mem.read16 w
    { s2 with R := updR s2.R rd v, Z := flagZ v, N := flagN v, C := false, V := false }
  else if opcode = 0x1D then                                                      -- OUT rs1, [io]
    let w := s1.mem.read16 s1.PC
    let s2 : CPU := { s1 with PC := (s1.PC + 2) % 65536 }
    { s2 with mem :=
        if 0xFF00 <= w then s2.mem.write8 w (s2.R rs1 &&& 0xFF) else s2.mem.write16 w (s2.R rs1) }
  else                                                           -- unknown opcode
    { s1 with halted := true, diag := some (opcode, (s1.PC : Int) - 2) }

/-- `CPU::exec`: fetch, decode, dispatch via `execOp`, then `mem.tick()`. -/
def CPU.exec (s : CPU) : CPU :=
  if s.halted then s else
  tickEnd
    (execOp ((s.mem.read16 s.PC >>> 11) &&& 0x1F)
      ((s.mem.read16 s.PC >>> 8) &&& 0x07)
      ((s.mem.read16 s.PC >>> 5) &&& 0x07)
      (s.mem.read16 s.PC &&& 0x07)
      (s.mem.read16 s.PC)
      { s with PC := (s.PC + 2) % 65536 })

/-! ## Timer iteration (for the temporal timer claim) -/

/-- `N` consecutive `tick`s, i.e. the device state after `N` retired
instructions (each `CPU::exec` of a non-halted CPU calls `tick` exactly
once, as the last step of `exec` above). -/
def tickN (m : Mem) : Nat → Mem
  | 0 => m
  | n + 1 => (tickN m n).tick

theorem tick_timercmp (m : Mem) : m.tick.timercmp = m.timercmp := rfl

theorem tickN_timercmp (m : Mem) (n : Nat) : (tickN m n).timercmp = m.timercmp := by
  induction n with
  | zero => rfl
  | succ n ih => simpa [tickN, Mem.tick] using ih

theorem tickN_timer (m : Mem) (n : Nat) (ht : m.timer < 65536) :
    (tickN m n).timer = (m.timer + n) % 65536 := by
  induction n with
  | zero => simp [tickN]; omega
  | succ n ih => simp [tickN, Mem.tick, ih]; omega

/-! ## Well-formedness of the CPU state -/

/-- The representation invariant corresponding to the `uint16_t` types of
`PC` and `R[8]`. -/
def wfCPU (s : CPU) : Prop := s.PC < 65536 ∧ ∀ i, s.R i < 65536

theorem read16_lt (m : Mem) (a : Nat) : m.read16 a < 65536 :=
  Nat.mod_lt _ (by decide)

theorem read8_lt (m : Mem) (a : Nat) : m.read8 a < 256 :=
  Nat.mod_lt _ (by decide)

theorem updR_lt {R : Nat → Nat} {i v : Nat} (hR : ∀ j, R j < 65536) (hv : v < 65536) :
    ∀ j, updR R i v j < 65536 := by
  intro j
  unfold updR
  split <;> [exact hv; exact hR j]

/-! ## Arithmetic helpers about the little-endian byte packing -/

theorem shiftLeft_lor_eq_add : ∀ (k a b : Nat), b < 2 ^ k → (a <<< k) ||| b = a <<< k + b := by
  intro k
  induction k with
  | zero =>
    intro a b hb
    have hb0 : b = 0 := by omega
    subst hb0
    rw [Nat.or_zero]
    omega
  | succ k ih =>
    intro a b hb
    have hbv : Nat.bit b.bodd b.div2 = b := Nat.bit_decomp b
    have hval : 2 * b.div2 + b.bodd.toNat = b := (Nat.bit_val _ _).symm.trans hbv
    have htn : b.bodd.toNat ≤ 1 := Bool.toNat_le _
    have hdiv : b.div2 < 2 ^ k := by
      rw [Nat.div2_val]
      have hp : 2 ^ (k + 1) = 2 ^ k * 2 := by ring
      rw [hp] at hb
      omega
    have h2 : 2 * (a <<< k) = Nat.bit false (a <<< k) := by rw [Nat.bit_val]; simp
    conv_lhs => rw [← hbv]
    rw [Nat.shiftLeft_succ, h2, Nat.lor_bit]
    simp only [Bool.false_or]
    rw [Nat.bit_val, ih a b.div2 hdiv, Nat.bit_val]
    simp only [Bool.toNat_false]
    omega

theorem lohi_pack (v : Nat) (hv : v < 65536) :
    ((((v >>> 8) &&& 255) % 256) <<< 8 ||| ((v &&& 255) % 256)) % 65536 = v := by
  have h1 : v &&& 255 = v % 256 := by
    have := Nat.and_pow_two_sub_one_eq_mod v 8
    norm_num at this
    exact this
  have h2 : (v >>> 8) &&& 255 = (v >>> 8) % 256 := by
    have := Nat.and_pow_two_sub_one_eq_mod (v >>> 8) 8
    norm_num at this
    exact this
  have h3 : v >>> 8 = v / 256 := by
    have := Nat.shiftRight_eq_div_pow v 8
    norm_num at this
    exact this
  rw [h1, h2, h3]
  have h4 : v / 256 % 256 % 256 < 2 ^ 8 := by norm_num; omega
  have h5 : v % 256 % 256 < 2 ^ 8 := by norm_num; omega
  rw [shiftLeft_lor_eq_add 8 _ _ h5, Nat.shiftLeft_eq]
  norm_num
  omega

theorem mod_mod_256 (x : Nat) : x % 256 % 256 = x % 256 := by omega

theorem tick_mem_array (m : Mem) : m.tick.mem = m.mem := rfl

theorem read8_tick_ram (m : Mem) (a : Nat) (h : a % 65536 < 0xFF00) :
    m.tick.read8 a = m.read8 a := by
  unfold Mem.read8
  rw [if_neg (by omega), if_neg (by omega)]
  rfl

theorem read16_tick_ram (m : Mem) (a : Nat) (h : a % 65536 + 1 < 0xFF00) :
    m.tick.read16 a = m.read16 a := by
  unfold Mem.read16
  rw [read8_tick_ram m _ (by omega), read8_tick_ram m _ (by omega)]

theorem write16_read16 (m : Mem) (a v : Nat) (ha : a + 1 < 0xFF00) (hv : v < 65536) :
    (m.write16 a v).read16 a = v := by
  have ha1 : a % 65536 = a := by omega
  have ha2 : (a + 1) % 65536 = a + 1 := by omega
  have hne : a + 1 ≠ a := by omega
  unfold Mem.write16 Mem.write8 Mem.read16 Mem.read8
  simp only [ha1, ha2]
  rw [if_neg (by omega), if_neg (by omega), if_neg (by omega), if_neg (by omega)]
  dsimp only
  rw [if_pos rfl, if_neg (by omega : ¬ (a = a + 1)), if_pos rfl]
  simp only [mod_mod_256]
  exact lohi_pack v hv

/-! ## Claim theorems: flags, timer -/

/-- C1.  ADD(0xFFFF, 0x0001) matches the spec (result 0, Z=1, N=0, C=1, V=0),
but SUB(0x8000, 0x0001) yields C = 0 where the spec (and the source's own
`carry = !borrow` comment) requires C = 1: because `b` is promoted to `int`
before `~`, `(uint32_t)(~b)` is `2^32-1-b` and bit 16 of `w` computes the
borrow, not its complement.  The claim is right and the code is wrong. -/
theorem add_sub_flag_examples :
    add16 0xFFFF 0x0001 = ⟨0x0000, true, false, true, false⟩ ∧
    sub16 0x8000 0x0001 = ⟨0x7FFF, false, false, false, true⟩ ∧
    (sub16 0x8000 0x0001).C ≠ true := by
  refine ⟨by decide, by decide, by decide⟩

theorem tickN_irq_disabled (m : Mem) (hc : m.timercmp = 0) (hi : m.irq_pending = false) :
    ∀ n, (tickN m n).irq_pending = false := by
  intro n
  induction n with
  | zero => exact hi
  | succ n ih =>
    have hcN : (tickN m n).timercmp = 0 := by rw [tickN_timercmp, hc]
    simp [tickN, Mem.tick, hcN, ih]

theorem tickN_irq_threshold (m : Mem) (K : Nat) (h0 : m.timer = 0) (hc : m.timercmp = K)
    (hi : m.irq_pending = false) (hK0 : 0 < K) (hK : K < 65536) :
    ∀ n, ((tickN m n).irq_pending = true ↔ K ≤ n) := by
  intro n
  induction n with
  | zero => simp [tickN, hi]; omega
  | succ n ih =>
    have ht : (tickN m n).timer = n % 65536 := by
      have := tickN_timer m n (by omega)
      rw [h0] at this
      simpa using this
    have hcN : (tickN m n).timercmp = K := by rw [tickN_timercmp, hc]
    simp only [tickN, Mem.tick, ht, hcN]
    split
    · next hcond =>
      simp only [true_iff]
      have : (n % 65536 + 1) % 65536 ≤ n + 1 := by omega
      omega
    · next hcond =>
      rw [ih]
      omega

/-- C4.  Starting from a fresh `Memory` (timer 0, irq clear) with the compare
register holding `K`, after `N` ticks (one per retired instruction —
`CPU::exec` calls `mem.tick()` exactly once on every non-halted step) the
timer reads `N % 2^16`; with `K = 0` the timer never raises `irq_pending`,
and with `0 < K < 2^16` the flag is set exactly from the `K`-th retired
instruction on. -/
theorem timer_count_and_irq (m : Mem) (K N : Nat)
    (h0 : m.timer = 0) (hc : m.timercmp = K) (hi : m.irq_pending = false) :
    (tickN m N).timer = N % 65536 ∧
    (K = 0 → (tickN m N).irq_pending = false) ∧
    (0 < K → K < 65536 → ((tickN m N).irq_pending = true ↔ K ≤ N)) := by
  refine ⟨?_, ?_, ?_⟩
  · have := tickN_timer m N (by omega)
    rw [h0] at this
    simpa using this
  · intro hK
    exact tickN_irq_disabled m (hc.trans hK) hi N
  · intro hK0 hK
    exact tickN_irq_threshold m K h0 hc hi hK0 hK N

/-- Witness for C4 at `K = 3`, `N = 5` on an explicit fresh memory. -/
theorem timer_count_and_irq_witness :
    (tickN ⟨fun _ => 0, 0, 3, false, []⟩ 5).timer = 5 % 65536 ∧
    ((3 : Nat) = 0 → (tickN ⟨fun _ => 0, 0, 3, false, []⟩ 5).irq_pending = false) ∧
    (0 < 3 → 3 < 65536 →
      ((tickN ⟨fun _ => 0, 0, 3, false, []⟩ 5).irq_pending = true ↔ 3 ≤ 5)) :=
  timer_count_and_irq ⟨fun _ => 0, 0, 3, false, []⟩ 3 5 rfl rfl rfl

/-! ## Generic facts about `exec` -/

theorem execOp_default (opcode rd rs1 imm3 insn : Nat) (s1 : CPU) (hop : 30 ≤ opcode) :
    execOp opcode rd rs1 imm3 insn s1 =
      { s1 with halted := true, diag := some (opcode, (s1.PC : Int) - 2) } := by
  unfold execOp
  rw [
    if_neg (by omega : ¬ opcode = 0),
    if_neg (by omega : ¬ opcode = 1),
    if_neg (by omega : ¬ opcode = 2),
    if_neg (by omega : ¬ opcode = 3),
    if_neg (by omega : ¬ opcode = 4),
    if_neg (by omega : ¬ opcode = 5),
    if_neg (by omega : ¬ opcode = 6),
    if_neg (by omega : ¬ opcode = 7),
    if_neg (by omega : ¬ opcode = 8),
    if_neg (by omega : ¬ opcode = 9),
    if_neg (by omega : ¬ opcode = 10),
    if_neg (by omega : ¬ opcode = 11),
    if_neg (by omega : ¬ opcode = 12),
    if_neg (by omega : ¬ opcode = 13),
    if_neg (by omega : ¬ opcode = 14),
    if_neg (by omega : ¬ opcode = 15),
    if_neg (by omega : ¬ opcode = 16),
    if_neg (by omega : ¬ opcode = 17),
    if_neg (by omega : ¬ opcode = 18),
    if_neg (by omega : ¬ opcode = 19),
    if_neg (by omega : ¬ opcode = 20),
    if_neg (by omega : ¬ opcode = 21),
    if_neg (by omega : ¬ opcode = 22),
    if_neg (by omega : ¬ opcode = 23),
    if_neg (by omega : ¬ opcode = 24),
    if_neg (by omega : ¬ opcode = 25),
    if_neg (by omega : ¬ opcode = 26),
    if_neg (by omega : ¬ opcode = 27),
    if_neg (by omega : ¬ opcode = 28),
    if_neg (by omega : ¬ opcode = 29)]

set_option maxHeartbeats 1000000 in
set_option linter.unreachableTactic false in
set_option linter.unusedTactic false in
set_option linter.unnecessarySeqFocus false in
theorem execOp_wf (opcode rd rs1 imm3 insn : Nat) (s1 : CPU) (h : wfCPU s1) :
    wfCPU (execOp opcode rd rs1 imm3 insn s1) := by
  obtain ⟨hPC, hR⟩ := h
  unfold execOp
  by_cases h0 : opcode = 0
  · rw [if_pos h0]
    refine ⟨?_, fun i => ?_⟩ <;> (try dsimp only) <;> (repeat' split) <;>
      first
        | exact hPC
        | exact hR i
        | exact Nat.mod_lt _ (by decide)
        | exact read16_lt _ _
        | (refine updR_lt hR ?_ i
           first
             | exact Nat.mod_lt _ (by decide)
             | exact read16_lt _ _
             | exact lt_trans (read8_lt _ _) (by decide)
             | omega)
        | omega
  rw [if_neg h0]
  by_cases h1 : opcode = 1
  · rw [if_pos h1]
    refine ⟨?_, fun i => ?_⟩ <;> (try dsimp only) <;> (repeat' split) <;>
      first
        | exact hPC
        | exact hR i
        | exact Nat.mod_lt _ (by decide)
        | exact read16_lt _ _
        | (refine updR_lt hR ?_ i
           first
             | exact Nat.mod_lt _ (by decide)
             | exact read16_lt _ _
             | exact lt_trans (read8_lt _ _) (by decide)
             | omega)
        | omega
  rw [if_neg h1]
  by_cases h2 : opcode = 2
  · rw [if_pos h2]
    refine ⟨?_, fun i => ?_⟩ <;> (try dsimp only) <;> (repeat' split) <;>
      first
        | exact hPC
        | exact hR i
        | exact Nat.mod_lt _ (by decide)
        | exact read16_lt _ _
        | (refine updR_lt hR ?_ i
           first
             | exact Nat.mod_lt _ (by decide)
             | exact read16_lt _ _
             | exact lt_trans (read8_lt _ _) (by decide)
             | omega)
        | omega
  rw [if_neg h2]
  by_cases h3 : opcode = 3
  · rw [if_pos h3]
    refine ⟨?_, fun i => ?_⟩ <;> (try dsimp only) <;> (repeat' split) <;>
      first
        | exact hPC
        | exact hR i
        | exact Nat.mod_lt _ (by decide)
        | exact read16_lt _ _
        | (refine updR_lt hR ?_ i
           first
             | exact Nat.mod_lt _ (by decide)
             | exact read16_lt _ _
             | exact lt_trans (read8_lt _ _) (by decide)
             | omega)
        | omega
  rw [if_neg h3]
  by_cases h4 : opcode = 4
  · rw [if_pos h4]
    refine ⟨?_, fun i => ?_⟩ <;> (try dsimp only) <;> (repeat' split) <;>
      first
        | exact hPC
        | exact hR i
        | exact Nat.mod_lt _ (by decide)
        | exact read16_lt _ _
        | (refine updR_lt hR ?_ i
           first
             | exact Nat.mod_lt _ (by decide)
             | exact read16_lt _ _
             | exact lt_trans (read8_lt _ _) (by decide)
             | omega)
        | omega
  rw [if_neg h4]
  by_cases h5 : opcode = 5
  · rw [if_pos h5]
    refine ⟨?_, fun i => ?_⟩ <;> (try dsimp only) <;> (repeat' split) <;>
      first
        | exact hPC
        | exact hR i
        | exact Nat.mod_lt _ (by decide)
        | exact read16_lt _ _
        | (refine updR_lt hR ?_ i
           first
             | exact Nat.mod_lt _ (by decide)
             | exact read16_lt _ _
             | exact lt_trans (read8_lt _ _) (by decide)
             | omega)
        | omega
  rw [if_neg h5]
  by_cases h6 : opcode = 6
  · rw [if_pos h6]
    refine ⟨?_, fun i => ?_⟩ <;> (try dsimp only) <;> (repeat' split) <;>
      first
        | exact hPC
        | exact hR i
        | exact Nat.mod_lt _ (by decide)
        | exact read16_lt _ _
        | (refine updR_lt hR ?_ i
           first
             | exact Nat.mod_lt _ (by decide)
             | exact read16_lt _ _
             | exact lt_trans (read8_lt _ _) (by decide)
             | omega)
        | omega
  rw [if_neg h6]
  by_cases h7 : opcode = 7
  · rw [if_pos h7]
    refine ⟨?_, fun i => ?_⟩ <;> (try dsimp only) <;> (repeat' split) <;>
      first
        | exact hPC
        | exact hR i
        | exact Nat.mod_lt _ (by decide)
        | exact read16_lt _ _
        | (refine updR_lt hR ?_ i
           first
             | exact Nat.mod_lt _ (by decide)
             | exact read16_lt _ _
             | exact lt_trans (read8_lt _ _) (by decide)
             | omega)
        | omega
  rw [if_neg h7]
  by_cases h8 : opcode = 8
  · rw [if_pos h8]
    refine ⟨?_, fun i => ?_⟩ <;> (try dsimp only) <;> (repeat' split) <;>
      first
        | exact hPC
        | exact hR i
        | exact Nat.mod_lt _ (by decide)
        | exact read16_lt _ _
        | (refine updR_lt hR ?_ i
           first
             | exact Nat.mod_lt _ (by decide)
             | exact read16_lt _ _
             | exact lt_trans (read8_lt _ _) (by decide)
             | omega)
        | omega
  rw [if_neg h8]
  by_cases h9 : opcode = 9
  · rw [if_pos h9]
    refine ⟨?_, fun i => ?_⟩ <;> (try dsimp only) <;> (repeat' split) <;>
      first
        | exact hPC
        | exact hR i
        | exact Nat.mod_lt _ (by decide)
        | exact read16_lt _ _
        | (refine updR_lt hR ?_ i
           first
             | exact Nat.mod_lt _ (by decide)
             | exact read16_lt _ _
             | exact lt_trans (read8_lt _ _) (by decide)
             | omega)
        | omega
  rw [if_neg h9]
  by_cases h10 : opcode = 10
  · rw [if_pos h10]
    refine ⟨?_, fun i => ?_⟩ <;> (try dsimp only) <;> (repeat' split) <;>
      first
        | exact hPC
        | exact hR i
        | exact Nat.mod_lt _ (by decide)
        | exact read16_lt _ _
        | (refine updR_lt hR ?_ i
           first
             | exact Nat.mod_lt _ (by decide)
             | exact read16_lt _ _
             | exact lt_trans (read8_lt _ _) (by decide)
             | omega)
        | omega
  rw [if_neg h10]
  by_cases h11 : opcode = 11
  · rw [if_pos h11]
    refine ⟨?_, fun i => ?_⟩ <;> (try dsimp only) <;> (repeat' split) <;>
      first
        | exact hPC
        | exact hR i
        | exact Nat.mod_lt _ (by decide)
        | exact read16_lt _ _
        | (refine updR_lt hR ?_ i
           first
             | exact Nat.mod_lt _ (by decide)
             | exact read16_lt _ _
             | exact lt_trans (read8_lt _ _) (by decide)
             | omega)
        | omega
  rw [if_neg h11]
  by_cases h12 : opcode = 12
  · rw [if_pos h12]
    refine ⟨?_, fun i => ?_⟩ <;> (try dsimp only) <;> (repeat' split) <;>
      first
        | exact hPC
        | exact hR i
        | exact Nat.mod_lt _ (by decide)
        | exact read16_lt _ _
        | (refine updR_lt hR ?_ i
           first
             | exact Nat.mod_lt _ (by decide)
             | exact read16_lt _ _
             | exact lt_trans (read8_lt _ _) (by decide)
             | omega)
        | omega
  rw [if_neg h12]
  by_cases h13 : opcode = 13
  · rw [if_pos h13]
    refine ⟨?_, fun i => ?_⟩ <;> (try dsimp only) <;> (repeat' split) <;>
      first
        | exact hPC
        | exact hR i
        | exact Nat.mod_lt _ (by decide)
        | exact read16_lt _ _
        | (refine updR_lt hR ?_ i
           first
             | exact Nat.mod_lt _ (by decide)
             | exact read16_lt _ _
             | exact lt_trans (read8_lt _ _) (by decide)
             | omega)
        | omega
  rw [if_neg h13]
  by_cases h14 : opcode = 14
  · rw [if_pos h14]
    refine ⟨?_, fun i => ?_⟩ <;> (try dsimp only) <;> (repeat' split) <;>
      first
        | exact hPC
        | exact hR i
        | exact Nat.mod_lt _ (by decide)
        | exact read16_lt _ _
        | (refine updR_lt hR ?_ i
           first
             | exact Nat.mod_lt _ (by decide)
             | exact read16_lt _ _
             | exact lt_trans (read8_lt _ _) (by decide)
             | omega)
        | omega
  rw [if_neg h14]
  by_cases h15 : opcode = 15
  · rw [if_pos h15]
    refine ⟨?_, fun i => ?_⟩ <;> (try dsimp only) <;> (repeat' split) <;>
      first
        | exact hPC
        | exact hR i
        | exact Nat.mod_lt _ (by decide)
        | exact read16_lt _ _
        | (refine updR_lt hR ?_ i
           first
             | exact Nat.mod_lt _ (by decide)
             | exact read16_lt _ _
             | exact lt_trans (read8_lt _ _) (by decide)
             | omega)
        | omega
  rw [if_neg h15]
  by_cases h16 : opcode = 16
  · rw [if_pos h16]
    refine ⟨?_, fun i => ?_⟩ <;> (try dsimp only) <;> (repeat' split) <;>
      first
        | exact hPC
        | exact hR i
        | exact Nat.mod_lt _ (by decide)
        | exact read16_lt _ _
        | (refine updR_lt hR ?_ i
           first
             | exact Nat.mod_lt _ (by decide)
             | exact read16_lt _ _
             | exact lt_trans (read8_lt _ _) (by decide)
             | omega)
        | omega
  rw [if_neg h16]
  by_cases h17 : opcode = 17
  · rw [if_pos h17]
    refine ⟨?_, fun i => ?_⟩ <;> (try dsimp only) <;> (repeat' split) <;>
      first
        | exact hPC
        | exact hR i
        | exact Nat.mod_lt _ (by decide)
        | exact read16_lt _ _
        | (refine updR_lt hR ?_ i
           first
             | exact Nat.mod_lt _ (by decide)
             | exact read16_lt _ _
             | exact lt_trans (read8_lt _ _) (by decide)
             | omega)
        | omega
  rw [if_neg h17]
  by_cases h18 : opcode = 18
  · rw [if_pos h18]
    refine ⟨?_, fun i => ?_⟩ <;> (try dsimp only) <;> (repeat' split) <;>
      first
        | exact hPC
        | exact hR i
        | exact Nat.mod_lt _ (by decide)
        | exact read16_lt _ _
        | (refine updR_lt hR ?_ i
           first
             | exact Nat.mod_lt _ (by decide)
             | exact read16_lt _ _
             | exact lt_trans (read8_lt _ _) (by decide)
             | omega)
        | omega
  rw [if_neg h18]
  by_cases h19 : opcode = 19
  · rw [if_pos h19]
    refine ⟨?_, fun i => ?_⟩ <;> (try dsimp only) <;> (repeat' split) <;>
      first
        | exact hPC
        | exact hR i
        | exact Nat.mod_lt _ (by decide)
        | exact read16_lt _ _
        | (refine updR_lt hR ?_ i
           first
             | exact Nat.mod_lt _ (by decide)
             | exact read16_lt _ _
             | exact lt_trans (read8_lt _ _) (by decide)
             | omega)
        | omega
  rw [if_neg h19]
  by_cases h20 : opcode = 20
  · rw [if_pos h20]
    refine ⟨?_, fun i => ?_⟩ <;> (try dsimp only) <;> (repeat' split) <;>
      first
        | exact hPC
        | exact hR i
        | exact Nat.mod_lt _ (by decide)
        | exact read16_lt _ _
        | (refine updR_lt hR ?_ i
           first
             | exact Nat.mod_lt _ (by decide)
             | exact read16_lt _ _
             | exact lt_trans (read8_lt _ _) (by decide)
             | omega)
        | omega
  rw [if_neg h20]
  by_cases h21 : opcode = 21
  · rw [if_pos h21]
    refine ⟨?_, fun i => ?_⟩ <;> (try dsimp only) <;> (repeat' split) <;>
      first
        | exact hPC
        | exact hR i
        | exact Nat.mod_lt _ (by decide)
        | exact read16_lt _ _
        | (refine updR_lt hR ?_ i
           first
             | exact Nat.mod_lt _ (by decide)
             | exact read16_lt _ _
             | exact lt_trans (read8_lt _ _) (by decide)
             | omega)
        | omega
  rw [if_neg h21]
  by_cases h22 : opcode = 22
  · rw [if_pos h22]
    refine ⟨?_, fun i => ?_⟩ <;> (try dsimp only) <;> (repeat' split) <;>
      first
        | exact hPC
        | exact hR i
        | exact Nat.mod_lt _ (by decide)
        | exact read16_lt _ _
        | (refine updR_lt hR ?_ i
           first
             | exact Nat.mod_lt _ (by decide)
             | exact read16_lt _ _
             | exact lt_trans (read8_lt _ _) (by decide)
             | omega)
        | omega
  rw [if_neg h22]
  by_cases h23 : opcode = 23
  · rw [if_pos h23]
    refine ⟨?_, fun i => ?_⟩ <;> (try dsimp only) <;> (repeat' split) <;>
      first
        | exact hPC
        | exact hR i
        | exact Nat.mod_lt _ (by decide)
        | exact read16_lt _ _
        | (refine updR_lt hR ?_ i
           first
             | exact Nat.mod_lt _ (by decide)
             | exact read16_lt _ _
             | exact lt_trans (read8_lt _ _) (by decide)
             | omega)
        | omega
  rw [if_neg h23]
  by_cases h24 : opcode = 24
  · rw [if_pos h24]
    refine ⟨?_, fun i => ?_⟩ <;> (try dsimp only) <;> (repeat' split) <;>
      first
        | exact hPC
        | exact hR i
        | exact Nat.mod_lt _ (by decide)
        | exact read16_lt _ _
        | (refine updR_lt hR ?_ i
           first
             | exact Nat.mod_lt _ (by decide)
             | exact read16_lt _ _
             | exact lt_trans (read8_lt _ _) (by decide)
             | omega)
        | omega
  rw [if_neg h24]
  by_cases h25 : opcode = 25
  · rw [if_pos h25]
    refine ⟨?_, fun i => ?_⟩ <;> (try dsimp only) <;> (repeat' split) <;>
      first
        | exact hPC
        | exact hR i
        | exact Nat.mod_lt _ (by decide)
        | exact read16_lt _ _
        | (refine updR_lt hR ?_ i
           first
             | exact Nat.mod_lt _ (by decide)
             | exact read16_lt _ _
             | exact lt_trans (read8_lt _ _) (by decide)
             | omega)
        | omega
  rw [if_neg h25]
  by_cases h26 : opcode = 26
  · rw [if_pos h26]
    refine ⟨?_, fun i => ?_⟩ <;> (try dsimp only) <;> (repeat' split) <;>
      first
        | exact hPC
        | exact hR i
        | exact Nat.mod_lt _ (by decide)
        | exact read16_lt _ _
        | (refine updR_lt hR ?_ i
           first
             | exact Nat.mod_lt _ (by decide)
             | exact read16_lt _ _
             | exact lt_trans (read8_lt _ _) (by decide)
             | omega)
        | omega
  rw [if_neg h26]
  by_cases h27 : opcode = 27
  · rw [if_pos h27]
    refine ⟨?_, fun i => ?_⟩ <;> (try dsimp only) <;> (repeat' split) <;>
      first
        | exact hPC
        | exact hR i
        | exact Nat.mod_lt _ (by decide)
        | exact read16_lt _ _
        | (refine updR_lt hR ?_ i
           first
             | exact Nat.mod_lt _ (by decide)
             | exact read16_lt _ _
             | exact lt_trans (read8_lt _ _) (by decide)
             | omega)
        | omega
  rw [if_neg h27]
  by_cases h28 : opcode = 28
  · rw [if_pos h28]
    refine ⟨?_, fun i => ?_⟩ <;> (try dsimp only) <;> (repeat' split) <;>
      first
        | exact hPC
        | exact hR i
        | exact Nat.mod_lt _ (by decide)
        | exact read16_lt _ _
        | (refine updR_lt hR ?_ i
           first
             | exact Nat.mod_lt _ (by decide)
             | exact read16_lt _ _
             | exact lt_trans (read8_lt _ _) (by decide)
             | omega)
        | omega
  rw [if_neg h28]
  by_cases h29 : opcode = 29
  · rw [if_pos h29]
    refine ⟨?_, fun i => ?_⟩ <;> (try dsimp only) <;> (repeat' split) <;>
      first
        | exact hPC
        | exact hR i
        | exact Nat.mod_lt _ (by decide)
        | exact read16_lt _ _
        | (refine updR_lt hR ?_ i
           first
             | exact Nat.mod_lt _ (by decide)
             | exact read16_lt _ _
             | exact lt_trans (read8_lt _ _) (by decide)
             | omega)
        | omega
  rw [if_neg h29]
  exact ⟨hPC, hR⟩

theorem exec_wf (s : CPU) (h : wfCPU s) : wfCPU s.exec := by
  by_cases hh : s.halted = true
  · simpa [CPU.exec, hh] using h
  · simp only [Bool.not_eq_true] at hh
    simp only [CPU.exec, hh, Bool.false_eq_true, if_false]
    exact execOp_wf _ _ _ _ _ _ ⟨Nat.mod_lt _ (by decide), h.2⟩

/-! ## Claim theorems: PC wraparound, unknown opcodes, CALL/RET -/

/-- Concrete machine states used by the witnesses below. -/
def memZero : Mem := ⟨fun _ => 0, 0, 0, false, []⟩

/-- C9.  Executing at `PC = 0xFFFE` (where the fetch reads the MMIO overlay,
which yields the word 0 = NOP, a single-word non-branching instruction)
leaves `PC = 0x0000`; and `exec` preserves the invariant that `PC` and every
register are reduced modulo 2^16 — every `PC`/`R7` update in the embedding
carries the `uint16_t` truncation, and every memory access goes through
`read8`/`write8`, which reduce the address modulo 2^16 before use. -/
theorem pc_wraps_mod_2_16 :
    (∀ s : CPU, s.halted = false → s.PC = 0xFFFE → (CPU.exec s).PC = 0) ∧
    (∀ s : CPU, wfCPU s → wfCPU (CPU.exec s)) := by
  constructor
  · intro s hh hPC
    have h1 : s.mem.read16 65534 = 0 := by
      unfold Mem.read16 Mem.read8 Mem.mmio_read
      norm_num
    simp only [CPU.exec, hh, Bool.false_eq_true, if_false, hPC, h1]
    norm_num [execOp, tickEnd]
  · exact fun s h => exec_wf s h

/-- Witness for C9 at an explicit state with `PC = 0xFFFE`. -/
theorem pc_wraps_mod_2_16_witness :
    (CPU.exec ⟨memZero, fun _ => 0, 0xFFFE, false, false, false, false, false, none⟩).PC = 0 ∧
    wfCPU (CPU.exec ⟨memZero, fun _ => 0, 0xFFFE, false, false, false, false, false, none⟩) :=
  ⟨pc_wraps_mod_2_16.1 _ rfl rfl,
   pc_wraps_mod_2_16.2 _ ⟨by decide, fun i => by simp⟩⟩

/-- C7.  An opcode outside `0x00..0x1D` (the 5-bit field leaves only `0x1E`
and `0x1F`) halts the CPU, records the diagnostic naming the opcode and the
PC of the offending instruction, and leaves all RAM bytes and all general
registers unchanged (only the timer device advances through `tick`). -/
theorem unknown_opcode_halts (s : CPU) (hh : s.halted = false)
    (hPC : s.PC + 2 < 65536)
    (hop : 0x1E ≤ (s.mem.read16 s.PC >>> 11) &&& 0x1F) :
    (CPU.exec s).halted = true ∧
    (CPU.exec s).diag = some ((s.mem.read16 s.PC >>> 11) &&& 0x1F, (s.PC : Int)) ∧
    (∀ a, a < 0xFF00 → (CPU.exec s).mem.mem a = s.mem.mem a) ∧
    (∀ i, (CPU.exec s).R i = s.R i) := by
  have hmod : (s.PC + 2) % 65536 = s.PC + 2 := by omega
  simp only [CPU.exec, hh, Bool.false_eq_true, if_false]
  rw [execOp_default _ _ _ _ _ _ hop]
  refine ⟨rfl, ?_, fun a ha => rfl, fun i => rfl⟩
  simp only [tickEnd]
  show some (_, (((s.PC + 2) % 65536 : Nat) : Int) - 2) = _
  rw [hmod]
  push_cast
  norm_num

/-- Machine state holding an instruction word with the undefined opcode
`0x1E` (word `0xF000`) at address 0. -/
def cBadOpcode : CPU :=
  ⟨⟨fun a => if a = 1 then 0xF0 else 0, 0, 0, false, []⟩,
   fun _ => 0, 0, false, false, false, false, false, none⟩

/-- Witness for C7 on `cBadOpcode`. -/
theorem unknown_opcode_halts_witness :
    (CPU.exec cBadOpcode).halted = true ∧
    (CPU.exec cBadOpcode).diag = some (30, (0 : Int)) :=
  ⟨(unknown_opcode_halts cBadOpcode rfl (by decide) (by decide)).1,
   (unknown_opcode_halts cBadOpcode rfl (by decide) (by decide)).2.1⟩

theorem execOp_call (rd rs1 imm3 insn : Nat) (s1 : CPU) :
    execOp 0x1A rd rs1 imm3 insn s1 =
      { s1 with
          R := updR s1.R 7 ((s1.R 7 + 65534) % 65536)
          mem := s1.mem.write16 ((s1.R 7 + 65534) % 65536) ((s1.PC + 2) % 65536)
          PC := s1.mem.read16 s1.PC } := rfl

theorem execOp_ret (rd rs1 imm3 insn : Nat) (s1 : CPU) :
    execOp 0x1B rd rs1 imm3 insn s1 =
      { s1 with
          PC := s1.mem.read16 (s1.R 7)
          R := updR s1.R 7 ((s1.R 7 + 2) % 65536) } := rfl

/-- C5.  A CALL at address `PC` pushes the return address `PC + 4` (mod 2^16)
at `R7 - 2`, leaves `R7` decremented by 2 and jumps to the fetched target
`T`; from any later state that has preserved `R7` and the pushed stack word,
a RET pops that word into `PC` and restores `R7`, so control lands right
after the 4-byte CALL with `R7` at its pre-CALL value.  (The hypothesis
`hsp` keeps the pushed word inside RAM, away from the MMIO overlay.) -/
theorem call_ret_roundtrip (s : CPU) (T : Nat) (hh : s.halted = false)
    (hPC : s.PC < 65536) (hR7 : s.R 7 < 65536)
    (hop : (s.mem.read16 s.PC >>> 11) &&& 0x1F = 0x1A)
    (hT : s.mem.read16 ((s.PC + 2) % 65536) = T)
    (hsp : (s.R 7 + 65534) % 65536 + 1 < 0xFF00) :
    ((CPU.exec s).PC = T ∧
     (CPU.exec s).R 7 = (s.R 7 + 65534) % 65536 ∧
     (CPU.exec s).mem.read16 ((s.R 7 + 65534) % 65536) = (s.PC + 4) % 65536) ∧
    (∀ t : CPU, t.halted = false →
      t.R 7 = (s.R 7 + 65534) % 65536 →
      t.mem.read16 ((s.R 7 + 65534) % 65536) = (s.PC + 4) % 65536 →
      (t.mem.read16 t.PC >>> 11) &&& 0x1F = 0x1B →
      (CPU.exec t).PC = (s.PC + 4) % 65536 ∧ (CPU.exec t).R 7 = s.R 7) := by
  have hpc4 : ((s.PC + 2) % 65536 + 2) % 65536 = (s.PC + 4) % 65536 := by omega
  constructor
  · simp only [CPU.exec, hh, Bool.false_eq_true, if_false, hop, execOp_call]
    dsimp only [tickEnd]
    refine ⟨hT, ?_, ?_⟩
    · simp [updR]
    · rw [hpc4]
      rw [read16_tick_ram _ _ (by omega)]
      exact write16_read16 _ _ _ (by omega) (Nat.mod_lt _ (by decide))
  · intro t ht hR7t hstack hopt
    simp only [CPU.exec, ht, Bool.false_eq_true, if_false, hopt, execOp_ret]
    dsimp only [tickEnd]
    constructor
    · rw [hR7t, hstack]
    · simp only [updR, if_true, ite_true, hR7t]
      omega

/-- Machine state: `CALL 0x0010` at address 0, `RET` at address 0x0010,
`R7 = 0x7FFC`. -/
def cCall : CPU :=
  ⟨⟨fun a => if a = 1 then 0xD0 else if a = 2 then 0x10 else if a = 17 then 0xD8 else 0,
    0, 0, false, []⟩,
   fun i => if i = 7 then 0x7FFC else 0, 0, false, false, false, false, false, none⟩

/-- Witness for C5: running the CALL then the RET on `cCall` returns to
address 4 (right after the 4-byte CALL) with `R7` restored. -/
theorem call_ret_roundtrip_witness :
    (CPU.exec (CPU.exec cCall)).PC = (0 + 4) % 65536 ∧
    (CPU.exec (CPU.exec cCall)).R 7 = cCall.R 7 :=
  (call_ret_roundtrip cCall 16 rfl (by decide) (by decide) (by decide) (by decide)
      (by decide)).2
    (CPU.exec cCall)
    (by decide)
    (call_ret_roundtrip cCall 16 rfl (by decide) (by decide) (by decide) (by decide)
        (by decide)).1.2.1
    (call_ret_roundtrip cCall 16 rfl (by decide) (by decide) (by decide) (by decide)
        (by decide)).1.2.2
    (by decide)

/-! ## Assembler (`struct Assembler`): lexical helpers

Source text is modelled as `List Char` (one list per line, as produced by
`getline`). -/

/-- A line / token of assembler source. -/
abbrev Str := List Char

/-- ASCII `tolower`, as used by `Assembler::lower`. -/
def lowerChar (c : Char) : Char :=
  if 'A' ≤ c ∧ c ≤ 'Z' then Char.ofNat (c.toNat + 32) else c

/-- `Assembler::lower`. -/
def lower (s : Str) : Str := s.map lowerChar

/-- `Assembler::is_space`. -/
def is_space (c : Char) : Bool :=
  c == ' ' || c == '\t' || c == '\r' || c == '\n'

/-- `Assembler::trim`. -/
def trim (s : Str) : Str :=
  ((s.dropWhile fun c => is_space c).reverse.dropWhile fun c => is_space c).reverse

/-- The loop body of `Assembler::splitComma`: `cur` is the accumulated token,
`par` the bracket depth, `inStr` the quote state.  Tests use the already
updated `inStr`/`par`, as in the source. -/
def splitCommaGo : Str → Str → Int → Bool → List Str
  | [], cur, _, _ => if cur.isEmpty then [] else [trim cur]
  | c :: rest, cur, par, inStr =>
    let inStr1 := if c = '"' then !inStr else inStr
    let par1 : Int :=
      if !inStr1 && c == '[' then par + 1
      else if !inStr1 && c == ']' then par - 1
      else par
    if !inStr1 && par1 == 0 && c == ',' then
      trim cur :: splitCommaGo rest [] par1 inStr1
    else
      splitCommaGo rest (cur ++ [c]) par1 inStr1

/-- `Assembler::splitComma`. -/
def splitComma (s : Str) : List Str := splitCommaGo s [] 0 false

/-- C-locale `isspace`, used by `strtol` and by `stringstream` extraction. -/
def isCSpace (c : Char) : Bool :=
  c == ' ' || c == '\t' || c == '\n' || c == '\x0b' || c == '\x0c' || c == '\r'

/-- Value of a digit character in the given base (10 or 16), if any. -/
def digitVal (base : Nat) (c : Char) : Option Nat :=
  if '0' ≤ c ∧ c ≤ '9' ∧ c.toNat - '0'.toNat < base then some (c.toNat - '0'.toNat)
  else if base = 16 ∧ 'a' ≤ c ∧ c ≤ 'f' then some (c.toNat - 'a'.toNat + 10)
  else if base = 16 ∧ 'A' ≤ c ∧ c ≤ 'F' then some (c.toNat - 'A'.toNat + 10)
  else none

/-- Greedy digit run for `strtol`; returns the value and the rest (the `end`
pointer). -/
def digitsGo (base : Nat) : Str → Nat → Nat × Str
  | [], acc => (acc, [])
  | c :: rest, acc =>
    match digitVal base c with
    | some d => digitsGo base rest (acc * base + d)
    | none => (acc, c :: rest)

/-- `long` saturation of C `strtol` on overflow. -/
def clampLong (v : Int) : Int :=
  if v > 9223372036854775807 then 9223372036854775807
  else if v < -9223372036854775808 then -9223372036854775808
  else v

/-- C `strtol` on a list of characters: skip `isspace` characters, optional
sign, optional `0x` prefix in base 16 (only when a hex digit follows — else
the subject sequence is just the leading `0`); with no digits at all, no
conversion is performed and `end` is the original pointer. -/
def strtol (s : Str) (base : Nat) : Int × Str :=
  let s1 := s.dropWhile fun c => isCSpace c
  let sgn : Int := match s1 with
    | '-' :: _ => -1
    | _ => 1
  let s2 : Str := match s1 with
    | '-' :: r => r
    | '+' :: r => r
    | _ => s1
  let s3 : Str :=
    match base, s2 with
    | 16, '0' :: x :: r =>
      if (x = 'x' ∨ x = 'X') ∧ (digitVal 16 (r.headD ' ')).isSome then r else s2
    | _, _ => s2
  if (digitVal base (s3.headD ' ')).isSome then
    ((clampLong (sgn * ((digitsGo base s3 0).1 : Int)), (digitsGo base s3 0).2) : Int × Str)
  else (0, s)

/-- `(int)L`: two's-complement truncation of the `long` to 32 bits. -/
def wrap32 (v : Int) : Int :=
  if v % 4294967296 ≥ 2147483648 then v % 4294967296 - 4294967296 else v % 4294967296

/-- `(uint16_t)v` on an `int` value. -/
def wrap16i (v : Int) : Nat := (v % 65536).toNat

/-- `(uint8_t)v` on an `int` value. -/
def wrap8i (v : Int) : Nat := (v % 256).toNat

/-- Escape decoding in a char literal (`\n`, `\t`, `\0`, `\<c>`). -/
def escCode (c : Char) : Int :=
  if c = 'n' then 10 else if c = 't' then 9 else if c = '0' then 0
  else (c.toNat % 256 : Nat)

/-- `Assembler::parse_int`: `#` prefix stripped, char literals of the forms
`'x'` and `'\x'` (other quoted shapes fall through to `strtol`, as in the
source), `0x`/`0X` hex, `strtol` must consume the whole token. -/
def parse_int (s : Str) : Option Int :=
  let t := if s.headD ' ' = '#' then s.drop 1 else s
  let quoted := 3 ≤ t.length ∧ t.headD ' ' = '\'' ∧ t.getLastD ' ' = '\''
  if quoted ∧ t.length = 3 then some ((t.getD 1 ' ').toNat % 256 : Nat)
  else if quoted ∧ t.length = 4 ∧ t.getD 1 ' ' = '\\' then some (escCode (t.getD 2 ' '))
  else
    let base := if 2 < t.length ∧ t.getD 0 ' ' = '0' ∧ (t.getD 1 ' ' = 'x' ∨ t.getD 1 ' ' = 'X')
      then 16 else 10
    if (strtol t base).2 = [] then some (wrap32 (strtol t base).1) else none

/-- `Assembler::parse_reg`: `rN` (case-insensitive) with `strtol` after the
`r` consuming the rest, `0 ≤ N ≤ 7`. -/
def parse_reg (s : Str) : Option Nat :=
  let t := lower s
  if t.length < 2 ∨ t.headD ' ' ≠ 'r' then none
  else
    if (strtol (t.drop 1) 10).2 = [] ∧ 0 ≤ (strtol (t.drop 1) 10).1 ∧
        (strtol (t.drop 1) 10).1 ≤ 7 then
      some (strtol (t.drop 1) 10).1.toNat
    else none

/-- `Assembler::parse_addr_token`: `[literal]` gives an address (`inl`),
`[anything-else]` gives a (lowercased) symbol (`inr`), non-bracketed tokens
fail. -/
def parse_addr_token (tok : Str) : Option (Sum Nat Str) :=
  let t := trim tok
  if t.length < 3 ∨ t.headD ' ' ≠ '[' ∨ t.getLastD ' ' ≠ ']' then none
  else
    let inner := trim ((t.drop 1).take (t.length - 2))
    match parse_int inner with
    | some v => some (Sum.inl (wrap16i v))
    | none => some (Sum.inr (lower inner))

/-- The `.stringz` body loop shared by both passes: starts after the opening
quote, handles `\`-escapes, stops at an unescaped closing quote or at the
end of the token. -/
def stringzBody : Str → Bool → Str
  | [], _ => []
  | c :: rest, true =>
    (if c = 'n' then '\n' else if c = 't' then '\t'
     else if c = '0' then Char.ofNat 0 else c) :: stringzBody rest false
  | c :: rest, false =>
    if c = '\\' then stringzBody rest true
    else if c = '"' then []
    else c :: stringzBody rest false

/-! ## Assembler: line structure shared by the two passes -/

/-- Comment stripping and trimming done at the top of both `pass1` and
`pass2`: everything from the first `;` on (`s.find(';')`, with no quote
awareness) is dropped, then the line is trimmed. -/
def stripLine (raw : Str) : Str := trim (raw.takeWhile fun c => c ≠ ';')

/-- The label defined by a (stripped, non-empty) line, if any: either the
whole line up to a trailing `:`, or the part before the first `:`.  Recorded
lowercased, as `sym[lower(lab)]`. -/
def lineLabel (s : Str) : Option Str :=
  if s.getLastD ' ' = ':' then some (lower (trim (s.take (s.length - 1))))
  else
    match s.findIdx? (fun c => c = ':') with
    | some i => some (lower (trim (s.take i)))
    | none => none

/-- The directive/instruction part of a (stripped, non-empty) line: `none`
for a pure label or an empty remainder, otherwise the trimmed text after the
first `:` (or the whole line). -/
def lineContent (s : Str) : Option Str :=
  if s.getLastD ' ' = ':' then none
  else
    match s.findIdx? (fun c => c = ':') with
    | some i => if trim (s.drop (i + 1)) = [] then none else some (trim (s.drop (i + 1)))
    | none => some s

/-- `ts >> mnemRaw; getline(ts, rest)`: the first `isspace`-delimited token
and the trimmed remainder. -/
def mnemSplit (s : Str) : Str × Str :=
  ((s.dropWhile fun c => isCSpace c).takeWhile fun c => !isCSpace c,
   trim (((s.dropWhile fun c => isCSpace c).dropWhile fun c => !isCSpace c)))

/-- The pass-1 `needWide` set. -/
def needWide (m : Str) : Bool :=
  ["ldi".data, "ldb".data, "stb".data, "jmp".data, "jz".data, "jnz".data, "jc".data,
    "jn".data, "call".data, "in".data, "out".data].contains m

/-! ## Assembler: pass 1 (sizing and symbol table) -/

/-- Symbol table: lowercased name to address, last definition wins
(`unordered_map::operator[]`). -/
def symInsert (t : List (Str × Nat)) (k : Str) (v : Nat) : List (Str × Nat) :=
  match t with
  | [] => [(k, v)]
  | (k1, v1) :: rest => if k1 = k then (k, v) :: rest else (k1, v1) :: symInsert rest k v

/-- `sym.find`. -/
def symFind (t : List (Str × Nat)) (k : Str) : Option Nat :=
  match t with
  | [] => none
  | (k1, v1) :: rest => if k1 = k then some v1 else symFind rest k

/-- The pass-1 handling of the content part of a line: `.org` resets the
virtual pc, `.word`/`.stringz` advance it by their size, instructions by 2
or 4 bytes (`LD`/`ST` are 2 bytes only in the two-operand `+` short form,
the `needWide` set takes an operand word). -/
def contentStep1 (pc : Nat) (s : Str) : Except String Nat :=
  if List.isPrefixOf ".org".data (lower s) then
    match parse_int (trim (s.drop 4)) with
    | some v => .ok (wrap16i v)
    | none => .error ".org expects value"
  else if List.isPrefixOf ".word".data (lower s) then
    .ok ((splitComma (trim (s.drop 5))).foldl (fun p _ => (p + 2) % 65536) pc)
  else if List.isPrefixOf ".stringz".data (lower s) then
    if (trim (s.drop 8)).headD ' ' ≠ '"' then .error ".stringz expects string"
    else .ok ((pc + ((stringzBody ((trim (s.drop 8)).drop 1) false).length + 1) % 65536) % 65536)
  else
    if lower (mnemSplit s).1 = "ld".data ∨ lower (mnemSplit s).1 = "st".data then
      if (splitComma (mnemSplit s).2).length = 2 ∧
          ((splitComma (mnemSplit s).2).getD 1 []).contains '+' then .ok ((pc + 2) % 65536)
      else .ok ((pc + 4) % 65536)
    else if needWide (lower (mnemSplit s).1) then .ok (((pc + 2) % 65536 + 2) % 65536)
    else .ok ((pc + 2) % 65536)

/-- The label recording of a `pass1` iteration (`sym[lower(lab)] = pc`). -/
def pass1Sym (acc : Nat × List (Str × Nat)) (raw : Str) : List (Str × Nat) :=
  match lineLabel (stripLine raw) with
  | some lab => symInsert acc.2 lab acc.1
  | none => acc.2

/-- A single `pass1` loop iteration: strip, record the label, size the
content. -/
def pass1Line (acc : Nat × List (Str × Nat)) (raw : Str) :
    Except String (Nat × List (Str × Nat)) :=
  if stripLine raw = [] then .ok acc
  else
    match lineContent (stripLine raw) with
    | none => .ok (acc.1, pass1Sym acc raw)
    | some c =>
      match contentStep1 acc.1 c with
      | .ok pc1 => .ok (pc1, pass1Sym acc raw)
      | .error e => .error e

/-- `Assembler::pass1` over a list of lines, from a given starting pc
(`pc = org`) and symbol table. -/
def pass1Lines (acc : Nat × List (Str × Nat)) : List Str → Except String (Nat × List (Str × Nat))
  | [] => .ok acc
  | l :: ls =>
    match pass1Line acc l with
    | .ok acc1 => pass1Lines acc1 ls
    | .error e => .error e

/-! ## Assembler: pass 2 (emission) -/

/-- Pass-2 assembler state: `pc` (only ever set by `.org`), the origin
(`org`, set to 0 by `load` and never written afterwards), the output byte
vector and the pending fixups. -/
structure A2 where
  pc : Nat
  org : Nat
  bytes : List Nat
  fixups : List (Nat × Str)
deriving DecidableEq

/-- `Assembler::emit8` (`vector<uint8_t>::push_back`). -/
def emit8 (st : A2) (b : Nat) : A2 := { st with bytes := st.bytes ++ [b % 256] }

/-- `Assembler::emit16` (little-endian). -/
def emit16 (st : A2) (w : Nat) : A2 := emit8 (emit8 st (w &&& 0xFF)) ((w >>> 8) &&& 0xFF)

/-- `Assembler::emit_fixup16`: record `(bytes.size(), name)` and emit a
placeholder word. -/
def emit_fixup16 (st : A2) (name : Str) : A2 :=
  emit16 { st with fixups := st.fixups ++ [(st.bytes.length, name)] } 0

/-- The pass-2 `.org` handling: set `pc`, then zero-pad while
`bytes.size() < (size_t)(pc - org)` (the `int` difference is converted to
`size_t`, i.e. taken modulo 2^64). -/
def orgStep (st : A2) (v : Int) : A2 :=
  { st with
    pc := wrap16i v
    bytes := st.bytes ++
      List.replicate
        ((((wrap16i v : Int) - (st.org : Int)) % 18446744073709551616).toNat - st.bytes.length)
        0 }

/-- `Assembler::reg_of`: `parse_reg` or a thrown `bad register`. -/
def reg_of (tok : Str) : Except String Nat :=
  match parse_reg tok with
  | some r => .ok r
  | none => .error ("bad register: " ++ String.mk tok)

/-- `parts[i]` on a `vector<string>`: an out-of-range access is undefined
behavior in the source; the embedding models it as a failure. -/
def vecGet (parts : List Str) (i : Nat) : Except String Str :=
  match parts.get? i with
  | some p => .ok p
  | none => .error "operand index out of range"

def emitRRI (st : A2) (op rd rs1 imm3 : Nat) : A2 :=
  emit16 st ((op <<< 11) ||| (rd <<< 8) ||| (rs1 <<< 5) ||| (imm3 &&& 0x07))

def emitR (st : A2) (op rd rs1 : Nat) : A2 :=
  emit16 st ((op <<< 11) ||| (rd <<< 8) ||| (rs1 <<< 5))

def emitRI8 (st : A2) (op rd : Nat) (imm8 : Int) : A2 :=
  emit16 st ((op <<< 11) ||| (rd <<< 8) ||| wrap8i imm8)

def emitW (st : A2) (op rd : Nat) : A2 :=
  emit16 st ((op <<< 11) ||| (rd <<< 8))

/-- The `[addr16]`-operand tail shared by LD/ST/LDB/STB/IN/OUT: a literal is
emitted directly, a symbol becomes a fixup, anything else throws. -/
def emitAddr (st : A2) (tok : Str) (err : String) : Except String A2 :=
  match parse_addr_token tok with
  | some (Sum.inl addr) => .ok (emit16 st addr)
  | some (Sum.inr symb) => .ok (emit_fixup16 st symb)
  | none => .error err

/-- The `[rb+imm5]` short-form operand of LD/ST: strip the outer brackets
(`substr(1, size-2)`), split at the first `+`, register and integer; the
`& 0x1F` is the two's-complement `v & 0x1F` of the source. -/
def shortOperand (addrTok : Str) (who : String) : Except String (Nat × Nat) :=
  match (trim ((addrTok.drop 1).take (addrTok.length - 2))).findIdx? (fun c => c = '+') with
  | none => .error (who ++ " short expects rb+imm")
  | some plus =>
    let inside := trim ((addrTok.drop 1).take (addrTok.length - 2))
    match reg_of (trim (inside.take plus)) with
    | .error e => .error e
    | .ok rb =>
      match parse_int (trim (inside.drop (plus + 1))) with
      | none => .error (who ++ " short imm must be int")
      | some v => .ok (rb, ((v % 32).toNat &&& 0x1F))

/-- Two-register instructions (`rd`, `rs`).  The callers with an explicit
operand-count check perform it before calling. -/
def regRegStep (st : A2) (op : Nat) (parts : List Str) : Except String A2 :=
  match vecGet parts 0 with
  | .error e => .error e
  | .ok p0 =>
    match reg_of p0 with
    | .error e => .error e
    | .ok rd =>
      match vecGet parts 1 with
      | .error e => .error e
      | .ok p1 =>
        match reg_of p1 with
        | .error e => .error e
        | .ok rs => .ok (emitR st op rd rs)

/-- SHL/SHR: register plus a shift count in `0..7`. -/
def shiftStep (st : A2) (op : Nat) (parts : List Str) : Except String A2 :=
  match vecGet parts 0 with
  | .error e => .error e
  | .ok p0 =>
    match reg_of p0 with
    | .error e => .error e
    | .ok rd =>
      match vecGet parts 1 with
      | .error e => .error e
      | .ok p1 =>
        match parse_int p1 with
        | some v =>
          if v < 0 ∨ v > 7 then .error "shift count 0..7" else .ok (emitRRI st op rd 0 v.toNat)
        | none => .error "shift count 0..7"

/-- ADDI/CMPI: register plus an 8-bit immediate. -/
def imm8Step (st : A2) (op : Nat) (parts : List Str) : Except String A2 :=
  match vecGet parts 0 with
  | .error e => .error e
  | .ok p0 =>
    match reg_of p0 with
    | .error e => .error e
    | .ok rd =>
      match vecGet parts 1 with
      | .error e => .error e
      | .ok p1 =>
        match parse_int p1 with
        | some v => .ok (emitRI8 st op rd v)
        | none => .error "imm8 expected"

/-- JMP/JZ/JNZ/JC/JN/CALL: opcode word then the target — a literal or a
fixup on `lower(parts[0])`. -/
def jumpStep (st : A2) (op : Nat) (parts : List Str) : Except String A2 :=
  match vecGet parts 0 with
  | .error e => .error e
  | .ok p0 =>
    match parse_int p0 with
    | some v => .ok (emit16 (emitW st op 0) (wrap16i v))
    | none => .ok (emit_fixup16 (emitW st op 0) (lower p0))

/-- The LD/ST bodies: short `[rb+imm5]` form when the operand contains `+`,
else the absolute two-word form. -/
def ldStep (st : A2) (parts : List Str) : Except String A2 :=
  if parts.length ≠ 2 then .error "LD rd, [..]" else
  match reg_of (parts.getD 0 []) with
  | .error e => .error e
  | .ok rd =>
    if (parts.getD 1 []).contains '+' then
      match shortOperand (parts.getD 1 []) "LD" with
      | .error e => .error e
      | .ok ri => .ok (emit16 st ((0x13 <<< 11) ||| (rd <<< 8) ||| (ri.1 <<< 5) ||| ri.2))
    else emitAddr (emitW st 0x0F rd) (parts.getD 1 []) "LD rd, [addr16]"

def stStep (st : A2) (parts : List Str) : Except String A2 :=
  if parts.length ≠ 2 then .error "ST rs, [..]" else
  match reg_of (parts.getD 0 []) with
  | .error e => .error e
  | .ok rs =>
    if (parts.getD 1 []).contains '+' then
      match shortOperand (parts.getD 1 []) "ST" with
      | .error e => .error e
      | .ok ri => .ok (emit16 st ((0x14 <<< 11) ||| (ri.1 <<< 8) ||| (rs <<< 5) ||| ri.2))
    else emitAddr (emitW st 0x10 rs) (parts.getD 1 []) "ST rs, [addr16]"

/-- LDB/STB/IN: size check, register, opcode word, address operand. -/
def wideAddrStep (st : A2) (op : Nat) (parts : List Str) (err : String) :
    Except String A2 :=
  if parts.length ≠ 2 then .error err else
  match reg_of (parts.getD 0 []) with
  | .error e => .error e
  | .ok rd => emitAddr (emitW st op rd) (parts.getD 1 []) err

/-- The pass-2 mnemonic dispatch (the long if-chain of `pass2`). -/
def instrStep (st : A2) (M : Str) (parts : List Str) : Except String A2 :=
  if M = "nop".data then .ok (emit16 st 0x0000)
  else if M = "halt".data then .ok (emit16 st (0x01 <<< 11))
  else if M = "ldi".data then
    if parts.length ≠ 2 then .error "LDI rd, imm16" else
    match reg_of (parts.getD 0 []) with
    | .error e => .error e
    | .ok rd =>
      match parse_int (parts.getD 1 []) with
      | some v => .ok (emit16 (emitW st 0x02 rd) (wrap16i v))
      | none => .ok (emit_fixup16 (emitW st 0x02 rd) (lower (parts.getD 1 [])))
  else if M = "mov".data then
    if parts.length ≠ 2 then .error "MOV rd, rs" else regRegStep st 0x03 parts
  else if M = "add".data then regRegStep st 0x04 parts
  else if M = "sub".data then regRegStep st 0x05 parts
  else if M = "and".data then regRegStep st 0x06 parts
  else if M = "or".data then regRegStep st 0x07 parts
  else if M = "xor".data then regRegStep st 0x08 parts
  else if M = "not".data then
    if parts.length ≠ 1 then .error "NOT rd" else
    match reg_of (parts.getD 0 []) with
    | .error e => .error e
    | .ok rd => .ok (emitR st 0x09 rd 0)
  else if M = "shl".data then shiftStep st 0x0A parts
  else if M = "shr".data then shiftStep st 0x0B parts
  else if M = "addi".data then imm8Step st 0x0C parts
  else if M = "cmpi".data then imm8Step st 0x0D parts
  else if M = "cmp".data then regRegStep st 0x0E parts
  else if M = "ld".data then ldStep st parts
  else if M = "st".data then stStep st parts
  else if M = "ldb".data then wideAddrStep st 0x11 parts "LDB rd, [addr16]"
  else if M = "stb".data then wideAddrStep st 0x12 parts "STB rs, [addr16]"
  else if M = "jmp".data then jumpStep st 0x15 parts
  else if M = "jz".data then jumpStep st 0x16 parts
  else if M = "jnz".data then jumpStep st 0x17 parts
  else if M = "jc".data then jumpStep st 0x18 parts
  else if M = "jn".data then jumpStep st 0x19 parts
  else if M = "call".data then jumpStep st 0x1A parts
  else if M = "ret".data then .ok (emitW st 0x1B 0)
  else if M = "in".data then wideAddrStep st 0x1C parts "IN rd, [addr16]"
  else if M = "out".data then
    if parts.length ≠ 2 then .error "OUT rs, [addr16]" else
    match reg_of (parts.getD 0 []) with
    | .error e => .error e
    | .ok rs => emitAddr (emit16 st ((0x1D <<< 11) ||| (rs <<< 5))) (parts.getD 1 [])
        "OUT rs, [addr16]"
  else .error ("Unknown mnemonic: " ++ String.mk M)

/-- The pass-2 handling of the content part of a line.  The source reads an
uninitialized `v` when the pass-2 `.org` value fails to parse (pass 1 would
have thrown); that undefined behavior is modelled as a failure. -/
def contentStep2 (st : A2) (s : Str) : Except String A2 :=
  if List.isPrefixOf ".org".data (lower s) then
    match parse_int (trim (s.drop 4)) with
    | some v => .ok (orgStep st v)
    | none => .error "uninitialized .org value"
  else if List.isPrefixOf ".word".data (lower s) then
    .ok ((splitComma (trim (s.drop 5))).foldl
      (fun st p =>
        match parse_int p with
        | some v => emit16 st (wrap16i v)
        | none => emit_fixup16 st (lower (trim p))) st)
  else if List.isPrefixOf ".stringz".data (lower s) then
    .ok (emit8
      ((stringzBody ((trim (s.drop 8)).drop 1) false).foldl
        (fun st c => emit8 st c.toNat) st) 0)
  else instrStep st (lower (mnemSplit s).1) (splitComma (mnemSplit s).2)

/-- A single `pass2` loop iteration: strip, skip labels, emit the content. -/
def pass2Line (st : A2) (raw : Str) : Except String A2 :=
  if stripLine raw = [] then .ok st
  else
    match lineContent (stripLine raw) with
    | none => .ok st
    | some c => contentStep2 st c

/-- The line loop of `Assembler::pass2`. -/
def pass2Lines (st : A2) : List Str → Except String A2
  | [] => .ok st
  | l :: ls =>
    match pass2Line st l with
    | .ok st1 => pass2Lines st1 ls
    | .error e => .error e

/-- The fixup-resolution loop at the end of `pass2`: each resolved symbol
address is patched little-endian at the recorded offset; a missing symbol
throws `undefined label: <name>`. -/
def resolveFixups (bytes : List Nat) (fixups : List (Nat × Str)) (sym : List (Str × Nat)) :
    Except String (List Nat) :=
  match fixups with
  | [] => .ok bytes
  | (off, name) :: rest =>
    match symFind sym name with
    | none => .error ("undefined label: " ++ String.mk name)
    | some a => resolveFixups ((bytes.set off (a &&& 0xFF)).set (off + 1) ((a >>> 8) &&& 0xFF))
        rest sym

/-- `getline` splitting of `Assembler::load`: pieces between newlines, with
the final piece kept only when non-empty. -/
def splitLinesGo : Str → Str → List Str
  | [], cur => [cur]
  | c :: r, cur => if c = '\n' then cur :: splitLinesGo r [] else splitLinesGo r (cur ++ [c])

def splitLines (s : Str) : List Str :=
  if (splitLinesGo s []).getLastD [] = [] then (splitLinesGo s []).dropLast
  else splitLinesGo s []

/-- `Assembler::load`: split the text into lines and reset the state —
in particular `org = 0`, which nothing ever modifies afterwards. -/
def load (text : Str) : List Str × A2 := (splitLines text, ⟨0, 0, [], []⟩)

/-- `load` + `pass1` + `pass2` + fixup resolution: the whole `asm` pipeline
on a list of lines. -/
def assembleLines (ls : List Str) : Except String (List Nat) :=
  match pass1Lines (0, []) ls with
  | .error e => .error e
  | .ok p1 =>
    match pass2Lines ⟨0, 0, [], []⟩ ls with
    | .error e => .error e
    | .ok st => resolveFixups st.bytes st.fixups p1.2

/-! ## Size bookkeeping lemmas for pass 2 -/

@[simp] theorem emit8_org (st : A2) (b : Nat) : (emit8 st b).org = st.org := rfl
@[simp] theorem emit8_pc (st : A2) (b : Nat) : (emit8 st b).pc = st.pc := rfl
@[simp] theorem emit8_len (st : A2) (b : Nat) :
    (emit8 st b).bytes.length = st.bytes.length + 1 := by simp [emit8]

@[simp] theorem emit16_org (st : A2) (w : Nat) : (emit16 st w).org = st.org := rfl
@[simp] theorem emit16_pc (st : A2) (w : Nat) : (emit16 st w).pc = st.pc := rfl
@[simp] theorem emit16_len (st : A2) (w : Nat) :
    (emit16 st w).bytes.length = st.bytes.length + 2 := by
  simp [emit16]

@[simp] theorem emit_fixup16_org (st : A2) (n : Str) : (emit_fixup16 st n).org = st.org := rfl
@[simp] theorem emit_fixup16_pc (st : A2) (n : Str) : (emit_fixup16 st n).pc = st.pc := rfl
@[simp] theorem emit_fixup16_len (st : A2) (n : Str) :
    (emit_fixup16 st n).bytes.length = st.bytes.length + 2 := by
  simp [emit_fixup16]

theorem emitAddr_spec (st : A2) (tok : Str) (err : String) (st1 : A2)
    (h : emitAddr st tok err = .ok st1) :
    st1.org = st.org ∧ st1.pc = st.pc ∧ st1.bytes.length = st.bytes.length + 2 := by
  unfold emitAddr at h
  split at h
  · cases h
    simp
  · cases h
    simp
  · cases h

theorem regRegStep_spec (st : A2) (op : Nat) (parts : List Str) (st1 : A2)
    (h : regRegStep st op parts = .ok st1) :
    st1.org = st.org ∧ st1.pc = st.pc ∧ st1.bytes.length = st.bytes.length + 2 := by
  unfold regRegStep at h
  repeat' split at h
  all_goals cases h
  all_goals refine ⟨rfl, rfl, ?_⟩
  all_goals simp [emitR]

theorem shiftStep_spec (st : A2) (op : Nat) (parts : List Str) (st1 : A2)
    (h : shiftStep st op parts = .ok st1) :
    st1.org = st.org ∧ st1.pc = st.pc ∧ st1.bytes.length = st.bytes.length + 2 := by
  unfold shiftStep at h
  repeat' split at h
  all_goals cases h
  all_goals refine ⟨rfl, rfl, ?_⟩
  all_goals simp [emitRRI]

theorem imm8Step_spec (st : A2) (op : Nat) (parts : List Str) (st1 : A2)
    (h : imm8Step st op parts = .ok st1) :
    st1.org = st.org ∧ st1.pc = st.pc ∧ st1.bytes.length = st.bytes.length + 2 := by
  unfold imm8Step at h
  repeat' split at h
  all_goals cases h
  all_goals refine ⟨rfl, rfl, ?_⟩
  all_goals simp [emitRI8]

theorem jumpStep_spec (st : A2) (op : Nat) (parts : List Str) (st1 : A2)
    (h : jumpStep st op parts = .ok st1) :
    st1.org = st.org ∧ st1.pc = st.pc ∧ st1.bytes.length = st.bytes.length + 4 := by
  unfold jumpStep at h
  repeat' split at h
  all_goals cases h
  all_goals refine ⟨rfl, rfl, ?_⟩
  all_goals simp [emitW]
  all_goals omega

theorem wideAddrStep_spec (st : A2) (op : Nat) (parts : List Str) (err : String) (st1 : A2)
    (h : wideAddrStep st op parts err = .ok st1) :
    st1.org = st.org ∧ st1.pc = st.pc ∧ st1.bytes.length = st.bytes.length + 4 := by
  unfold wideAddrStep at h
  split at h
  · cases h
  · split at h
    · cases h
    · obtain ⟨h1, h2, h3⟩ := emitAddr_spec _ _ _ _ h
      simp [emitW] at h1 h2 h3
      exact ⟨h1, h2, by omega⟩

theorem ldStep_spec (st : A2) (parts : List Str) (st1 : A2)
    (h : ldStep st parts = .ok st1) :
    st1.org = st.org ∧ st1.pc = st.pc ∧
      st1.bytes.length = st.bytes.length +
        (if parts.length = 2 ∧ (parts.getD 1 []).contains '+' then 2 else 4) := by
  unfold ldStep at h
  split at h
  · cases h
  · next hlen =>
    split at h
    · cases h
    · split at h
      · next hplus =>
        rw [if_pos ⟨by omega, hplus⟩]
        split at h
        · cases h
        · cases h
          exact ⟨rfl, rfl, by simp⟩
      · next hplus =>
        rw [if_neg (by rintro ⟨-, hc⟩; exact hplus hc)]
        obtain ⟨h1, h2, h3⟩ := emitAddr_spec _ _ _ _ h
        simp [emitW] at h1 h2 h3
        exact ⟨h1, h2, by omega⟩

theorem stStep_spec (st : A2) (parts : List Str) (st1 : A2)
    (h : stStep st parts = .ok st1) :
    st1.org = st.org ∧ st1.pc = st.pc ∧
      st1.bytes.length = st.bytes.length +
        (if parts.length = 2 ∧ (parts.getD 1 []).contains '+' then 2 else 4) := by
  unfold stStep at h
  split at h
  · cases h
  · next hlen =>
    split at h
    · cases h
    · split at h
      · next hplus =>
        rw [if_pos ⟨by omega, hplus⟩]
        split at h
        · cases h
        · cases h
          exact ⟨rfl, rfl, by simp⟩
      · next hplus =>
        rw [if_neg (by rintro ⟨-, hc⟩; exact hplus hc)]
        obtain ⟨h1, h2, h3⟩ := emitAddr_spec _ _ _ _ h
        simp [emitW] at h1 h2 h3
        exact ⟨h1, h2, by omega⟩

/-- Byte count emitted by a successful pass-2 instruction dispatch: it
always equals the pass-1 sizing of the same mnemonic and operand list. -/
theorem instrStep_size (M : Str) (parts : List Str) (st : A2) (st1 : A2)
    (h : instrStep st M parts = .ok st1) :
    st1.org = st.org ∧ st1.pc = st.pc ∧
      st1.bytes.length = st.bytes.length +
        (if M = "ld".data ∨ M = "st".data then
          (if parts.length = 2 ∧ (parts.getD 1 []).contains '+' then 2 else 4)
         else if needWide M then 4 else 2) := by
  unfold instrStep at h
  by_cases hm0 : M = "nop".data
  · rw [if_pos hm0] at h
    subst hm0
    cases h
    refine ⟨rfl, rfl, ?_⟩
    rw [if_neg (by decide), if_neg (by decide)]
    simp [emitW]
  rw [if_neg hm0] at h
  by_cases hm1 : M = "halt".data
  · rw [if_pos hm1] at h
    subst hm1
    cases h
    refine ⟨rfl, rfl, ?_⟩
    rw [if_neg (by decide), if_neg (by decide)]
    simp [emitW]
  rw [if_neg hm1] at h
  by_cases hm2 : M = "ldi".data
  · rw [if_pos hm2] at h
    subst hm2
    split at h
    · cases h
    · split at h
      · cases h
      · split at h
        · cases h
          refine ⟨rfl, rfl, ?_⟩
          rw [if_neg (by decide), if_pos (by decide)]
          simp [emitW]
        · cases h
          refine ⟨rfl, rfl, ?_⟩
          rw [if_neg (by decide), if_pos (by decide)]
          simp [emitW]
  rw [if_neg hm2] at h
  by_cases hm3 : M = "mov".data
  · rw [if_pos hm3] at h
    subst hm3
    split at h
    · cases h
    · obtain ⟨o, q, l⟩ := regRegStep_spec _ _ _ _ h
      refine ⟨o, q, ?_⟩
      rw [if_neg (by decide), if_neg (by decide)]
      omega
  rw [if_neg hm3] at h
  by_cases hm4 : M = "add".data
  · rw [if_pos hm4] at h
    subst hm4
    obtain ⟨o, q, l⟩ := regRegStep_spec _ _ _ _ h
    refine ⟨o, q, ?_⟩
    rw [if_neg (by decide), if_neg (by decide)]
    omega
  rw [if_neg hm4] at h
  by_cases hm5 : M = "sub".data
  · rw [if_pos hm5] at h
    subst hm5
    obtain ⟨o, q, l⟩ := regRegStep_spec _ _ _ _ h
    refine ⟨o, q, ?_⟩
    rw [if_neg (by decide), if_neg (by decide)]
    omega
  rw [if_neg hm5] at h
  by_cases hm6 : M = "and".data
  · rw [if_pos hm6] at h
    subst hm6
    obtain ⟨o, q, l⟩ := regRegStep_spec _ _ _ _ h
    refine ⟨o, q, ?_⟩
    rw [if_neg (by decide), if_neg (by decide)]
    omega
  rw [if_neg hm6] at h
  by_cases hm7 : M = "or".data
  · rw [if_pos hm7] at h
    subst hm7
    obtain ⟨o, q, l⟩ := regRegStep_spec _ _ _ _ h
    refine ⟨o, q, ?_⟩
    rw [if_neg (by decide), if_neg (by decide)]
    omega
  rw [if_neg hm7] at h
  by_cases hm8 : M = "xor".data
  · rw [if_pos hm8] at h
    subst hm8
    obtain ⟨o, q, l⟩ := regRegStep_spec _ _ _ _ h
    refine ⟨o, q, ?_⟩
    rw [if_neg (by decide), if_neg (by decide)]
    omega
  rw [if_neg hm8] at h
  by_cases hm9 : M = "not".data
  · rw [if_pos hm9] at h
    subst hm9
    split at h
    · cases h
    · split at h
      · cases h
      · cases h
        refine ⟨rfl, rfl, ?_⟩
        rw [if_neg (by decide), if_neg (by decide)]
        simp [emitR]
  rw [if_neg hm9] at h
  by_cases hm10 : M = "shl".data
  · rw [if_pos hm10] at h
    subst hm10
    obtain ⟨o, q, l⟩ := shiftStep_spec _ _ _ _ h
    refine ⟨o, q, ?_⟩
    rw [if_neg (by decide), if_neg (by decide)]
    omega
  rw [if_neg hm10] at h
  by_cases hm11 : M = "shr".data
  · rw [if_pos hm11] at h
    subst hm11
    obtain ⟨o, q, l⟩ := shiftStep_spec _ _ _ _ h
    refine ⟨o, q, ?_⟩
    rw [if_neg (by decide), if_neg (by decide)]
    omega
  rw [if_neg hm11] at h
  by_cases hm12 : M = "addi".data
  · rw [if_pos hm12] at h
    subst hm12
    obtain ⟨o, q, l⟩ := imm8Step_spec _ _ _ _ h
    refine ⟨o, q, ?_⟩
    rw [if_neg (by decide), if_neg (by decide)]
    omega
  rw [if_neg hm12] at h
  by_cases hm13 : M = "cmpi".data
  · rw [if_pos hm13] at h
    subst hm13
    obtain ⟨o, q, l⟩ := imm8Step_spec _ _ _ _ h
    refine ⟨o, q, ?_⟩
    rw [if_neg (by decide), if_neg (by decide)]
    omega
  rw [if_neg hm13] at h
  by_cases hm14 : M = "cmp".data
  · rw [if_pos hm14] at h
    subst hm14
    obtain ⟨o, q, l⟩ := regRegStep_spec _ _ _ _ h
    refine ⟨o, q, ?_⟩
    rw [if_neg (by decide), if_neg (by decide)]
    omega
  rw [if_neg hm14] at h
  by_cases hm15 : M = "ld".data
  · rw [if_pos hm15] at h
    subst hm15
    obtain ⟨o, q, l⟩ := ldStep_spec _ _ _ h
    refine ⟨o, q, ?_⟩
    rw [if_pos (by decide : ("ld".data = "ld".data ∨ "ld".data = "st".data))]
    omega
  rw [if_neg hm15] at h
  by_cases hm16 : M = "st".data
  · rw [if_pos hm16] at h
    subst hm16
    obtain ⟨o, q, l⟩ := stStep_spec _ _ _ h
    refine ⟨o, q, ?_⟩
    rw [if_pos (by decide : ("st".data = "ld".data ∨ "st".data = "st".data))]
    omega
  rw [if_neg hm16] at h
  by_cases hm17 : M = "ldb".data
  · rw [if_pos hm17] at h
    subst hm17
    obtain ⟨o, q, l⟩ := wideAddrStep_spec _ _ _ _ _ h
    refine ⟨o, q, ?_⟩
    rw [if_neg (by decide), if_pos (by decide)]
    omega
  rw [if_neg hm17] at h
  by_cases hm18 : M = "stb".data
  · rw [if_pos hm18] at h
    subst hm18
    obtain ⟨o, q, l⟩ := wideAddrStep_spec _ _ _ _ _ h
    refine ⟨o, q, ?_⟩
    rw [if_neg (by decide), if_pos (by decide)]
    omega
  rw [if_neg hm18] at h
  by_cases hm19 : M = "jmp".data
  · rw [if_pos hm19] at h
    subst hm19
    obtain ⟨o, q, l⟩ := jumpStep_spec _ _ _ _ h
    refine ⟨o, q, ?_⟩
    rw [if_neg (by decide), if_pos (by decide)]
    omega
  rw [if_neg hm19] at h
  by_cases hm20 : M = "jz".data
  · rw [if_pos hm20] at h
    subst hm20
    obtain ⟨o, q, l⟩ := jumpStep_spec _ _ _ _ h
    refine ⟨o, q, ?_⟩
    rw [if_neg (by decide), if_pos (by decide)]
    omega
  rw [if_neg hm20] at h
  by_cases hm21 : M = "jnz".data
  · rw [if_pos hm21] at h
    subst hm21
    obtain ⟨o, q, l⟩ := jumpStep_spec _ _ _ _ h
    refine ⟨o, q, ?_⟩
    rw [if_neg (by decide), if_pos (by decide)]
    omega
  rw [if_neg hm21] at h
  by_cases hm22 : M = "jc".data
  · rw [if_pos hm22] at h
    subst hm22
    obtain ⟨o, q, l⟩ := jumpStep_spec _ _ _ _ h
    refine ⟨o, q, ?_⟩
    rw [if_neg (by decide), if_pos (by decide)]
    omega
  rw [if_neg hm22] at h
  by_cases hm23 : M = "jn".data
  · rw [if_pos hm23] at h
    subst hm23
    obtain ⟨o, q, l⟩ := jumpStep_spec _ _ _ _ h
    refine ⟨o, q, ?_⟩
    rw [if_neg (by decide), if_pos (by decide)]
    omega
  rw [if_neg hm23] at h
  by_cases hm24 : M = "call".data
  · rw [if_pos hm24] at h
    subst hm24
    obtain ⟨o, q, l⟩ := jumpStep_spec _ _ _ _ h
    refine ⟨o, q, ?_⟩
    rw [if_neg (by decide), if_pos (by decide)]
    omega
  rw [if_neg hm24] at h
  by_cases hm25 : M = "ret".data
  · rw [if_pos hm25] at h
    subst hm25
    cases h
    refine ⟨rfl, rfl, ?_⟩
    rw [if_neg (by decide), if_neg (by decide)]
    simp [emitW]
  rw [if_neg hm25] at h
  by_cases hm26 : M = "in".data
  · rw [if_pos hm26] at h
    subst hm26
    obtain ⟨o, q, l⟩ := wideAddrStep_spec _ _ _ _ _ h
    refine ⟨o, q, ?_⟩
    rw [if_neg (by decide), if_pos (by decide)]
    omega
  rw [if_neg hm26] at h
  by_cases hm27 : M = "out".data
  · rw [if_pos hm27] at h
    subst hm27
    split at h
    · cases h
    · split at h
      · cases h
      · obtain ⟨o, q, l⟩ := emitAddr_spec _ _ _ _ h
        simp at o q l
        refine ⟨o, q, ?_⟩
        rw [if_neg (by decide), if_pos (by decide)]
        omega
  rw [if_neg hm27] at h
  cases h

theorem wordFold_spec : ∀ (parts : List Str) (st : A2),
    ((parts.foldl (fun st p =>
        match parse_int p with
        | some v => emit16 st (wrap16i v)
        | none => emit_fixup16 st (lower (trim p))) st).org = st.org ∧
     (parts.foldl (fun st p =>
        match parse_int p with
        | some v => emit16 st (wrap16i v)
        | none => emit_fixup16 st (lower (trim p))) st).pc = st.pc ∧
     (parts.foldl (fun st p =>
        match parse_int p with
        | some v => emit16 st (wrap16i v)
        | none => emit_fixup16 st (lower (trim p))) st).bytes.length =
       st.bytes.length + 2 * parts.length) := by
  intro parts
  induction parts with
  | nil => intro st; simp
  | cons p ps ih =>
    intro st
    simp only [List.foldl_cons, List.length_cons]
    cases hp : parse_int p <;>
      simp only [hp] <;>
      obtain ⟨o, q, l⟩ := ih (match parse_int p with
        | some v => emit16 st (wrap16i v)
        | none => emit_fixup16 st (lower (trim p)))
    · rw [hp] at o q l
      simp at o q l
      exact ⟨o, q, by omega⟩
    · rw [hp] at o q l
      simp at o q l
      exact ⟨o, q, by omega⟩

theorem stringzFold_spec : ∀ (body : Str) (st : A2),
    ((body.foldl (fun st c => emit8 st c.toNat) st).org = st.org ∧
     (body.foldl (fun st c => emit8 st c.toNat) st).pc = st.pc ∧
     (body.foldl (fun st c => emit8 st c.toNat) st).bytes.length =
       st.bytes.length + body.length) := by
  intro body
  induction body with
  | nil => intro st; simp
  | cons c cs ih =>
    intro st
    simp only [List.foldl_cons, List.length_cons]
    obtain ⟨o, q, l⟩ := ih (emit8 st c.toNat)
    simp at o q l
    exact ⟨o, q, by omega⟩

theorem pcFold_spec : ∀ (parts : List Str) (pc : Nat), pc < 65536 →
    parts.foldl (fun p _ => (p + 2) % 65536) pc = (pc + 2 * parts.length) % 65536 := by
  intro parts
  induction parts with
  | nil => intro pc hpc; simp; omega
  | cons p ps ih =>
    intro pc hpc
    simp only [List.foldl_cons, List.length_cons]
    rw [ih _ (by omega)]
    omega

/-- Agreement of the two passes on the content part of a line: on success,
pass 2 keeps `org` unchanged, and either the line is an `.org` directive
(pass 1 jumps to the parsed target, pass 2 pads the image), or pass 2 emits
exactly the number of bytes by which pass 1 advanced its virtual pc. -/
theorem contentStep_agree (s : Str) (pc : Nat) (st : A2) (pc1 : Nat) (st1 : A2)
    (hpc : pc < 65536)
    (h1 : contentStep1 pc s = .ok pc1) (h2 : contentStep2 st s = .ok st1) :
    st1.org = st.org ∧
    ((List.isPrefixOf ".org".data (lower s) = true ∧
       ∃ v, parse_int (trim (s.drop 4)) = some v ∧ pc1 = wrap16i v ∧
         st1.bytes.length = st.bytes.length +
           ((((wrap16i v : Int) - (st.org : Int)) % 18446744073709551616).toNat
             - st.bytes.length) ∧
         st1.pc = wrap16i v) ∨
     (List.isPrefixOf ".org".data (lower s) = false ∧
       ∃ d, pc1 = (pc + d) % 65536 ∧ st1.bytes.length = st.bytes.length + d ∧
         st1.pc = st.pc)) := by
  unfold contentStep1 at h1
  unfold contentStep2 at h2
  by_cases horg : List.isPrefixOf ".org".data (lower s) = true
  · rw [if_pos horg] at h1 h2
    cases hv : parse_int (trim (s.drop 4)) with
    | none => rw [hv] at h1; cases h1
    | some v =>
      rw [hv] at h1 h2
      cases h1
      cases h2
      refine ⟨rfl, Or.inl ⟨horg, v, rfl, rfl, ?_, rfl⟩⟩
      simp [orgStep]
  · rw [Bool.not_eq_true] at horg
    rw [if_neg (by simp [horg])] at h1 h2
    refine ?_
    by_cases hword : List.isPrefixOf ".word".data (lower s) = true
    · rw [if_pos hword] at h1 h2
      cases h1
      cases h2
      obtain ⟨o, q, l⟩ := wordFold_spec (splitComma (trim (s.drop 5))) st
      refine ⟨o, Or.inr ⟨horg, 2 * (splitComma (trim (s.drop 5))).length, ?_, l, q⟩⟩
      rw [pcFold_spec _ _ hpc]
    · rw [Bool.not_eq_true] at hword
      rw [if_neg (by simp [hword])] at h1 h2
      by_cases hstr : List.isPrefixOf ".stringz".data (lower s) = true
      · rw [if_pos hstr] at h1 h2
        split at h1
        · cases h1
        · cases h1
          cases h2
          obtain ⟨o, q, l⟩ :=
            stringzFold_spec (stringzBody ((trim (s.drop 8)).drop 1) false) st
          refine ⟨o, Or.inr ⟨horg,
            (stringzBody ((trim (s.drop 8)).drop 1) false).length + 1, ?_, ?_, q⟩⟩
          · omega
          · rw [emit8_len, l]
            omega
      · rw [Bool.not_eq_true] at hstr
        rw [if_neg (by simp [hstr])] at h1 h2
        obtain ⟨o, q, l⟩ := instrStep_size _ _ _ _ h2
        refine ⟨o, Or.inr ⟨horg, _, ?_, l, q⟩⟩
        split at h1
        · next hld =>
          rw [if_pos hld] at l ⊢
          split at h1
          · next hsh =>
            cases h1
            rw [if_pos hsh]
          · next hsh =>
            cases h1
            rw [if_neg hsh]
        · next hld =>
          rw [if_neg hld] at l ⊢
          split at h1
          · next hw =>
            cases h1
            rw [if_pos hw]
            omega
          · next hw =>
            cases h1
            rw [if_neg hw]

/-- The value of a line when it is an `.org` directive that parses: the
stripped line has a non-empty content part starting with `.org` (after
lowercasing) whose operand `parse_int`s. -/
def orgValue? (raw : Str) : Option Int :=
  if stripLine raw = [] then none
  else
    match lineContent (stripLine raw) with
    | none => none
    | some c =>
      if List.isPrefixOf ".org".data (lower c) then parse_int (trim (c.drop 4)) else none

/-- Per-line agreement of the two passes: `org` is preserved, and a
successful line is either an `.org` (pass 1 jumps, pass 2 pads) or advances
pass 1's pc by exactly the number of bytes pass 2 emits. -/
theorem lineStep_agree (raw : Str) (pc : Nat) (sym : List (Str × Nat)) (st : A2)
    (pc1 : Nat) (sym1 : List (Str × Nat)) (st1 : A2)
    (hpc : pc < 65536)
    (h1 : pass1Line (pc, sym) raw = .ok (pc1, sym1)) (h2 : pass2Line st raw = .ok st1) :
    st1.org = st.org ∧
    ((∃ v, orgValue? raw = some v ∧ pc1 = wrap16i v ∧
        st1.bytes.length = st.bytes.length +
          ((((wrap16i v : Int) - (st.org : Int)) % 18446744073709551616).toNat
            - st.bytes.length)) ∨
     (orgValue? raw = none ∧ ∃ d, pc1 = (pc + d) % 65536 ∧
        st1.bytes.length = st.bytes.length + d)) := by
  unfold pass1Line at h1
  unfold pass2Line at h2
  unfold orgValue?
  by_cases hempty : stripLine raw = []
  · rw [if_pos hempty] at h1 h2 ⊢
    simp only [Except.ok.injEq, Prod.mk.injEq] at h1
    obtain ⟨rfl, rfl⟩ := h1
    cases h2
    exact ⟨rfl, Or.inr ⟨rfl, 0, by omega, by omega⟩⟩
  · rw [if_neg hempty] at h1 h2 ⊢
    cases hcont : lineContent (stripLine raw) with
    | none =>
      rw [hcont] at h1 h2
      dsimp only at h1 h2 ⊢
      simp only [Except.ok.injEq, Prod.mk.injEq] at h1
      obtain ⟨rfl, -⟩ := h1
      cases h2
      exact ⟨rfl, Or.inr ⟨rfl, 0, by omega, by omega⟩⟩
    | some c =>
      rw [hcont] at h1 h2
      dsimp only at h1 h2 ⊢
      cases hc1 : contentStep1 pc c with
      | error e => rw [hc1] at h1; cases h1
      | ok pcx =>
        rw [hc1] at h1
        simp only [Except.ok.injEq, Prod.mk.injEq] at h1
        obtain ⟨rfl, -⟩ := h1
        obtain ⟨ho, hcase⟩ := contentStep_agree c pc st pcx st1 hpc hc1 h2
        refine ⟨ho, ?_⟩
        rcases hcase with ⟨horg, v, hv, hpc1, hlen, -⟩ | ⟨horg, d, hd1, hd2, -⟩
        · rw [if_pos horg]
          exact Or.inl ⟨v, hv, hpc1, hlen⟩
        · rw [if_neg (by simp [horg])]
          exact Or.inr ⟨rfl, d, hd1, hd2⟩

theorem wrap16i_lt (v : Int) : wrap16i v < 65536 := by
  unfold wrap16i
  have h1 : 0 ≤ v % 65536 := Int.emod_nonneg v (by norm_num)
  have h2 : v % 65536 < 65536 := Int.emod_lt_of_pos v (by norm_num)
  omega

theorem pad_target_of_zero_org (w : Nat) (hw : w < 65536) :
    (((w : Int) - ((0 : Nat) : Int)) % 18446744073709551616).toNat = w := by
  have h1 : ((w : Int) - ((0 : Nat) : Int)) % 18446744073709551616 = (w : Int) := by
    rw [Nat.cast_zero, sub_zero]
    refine Int.emod_eq_of_lt (by positivity) (by omega)
  rw [h1]
  omega

/-- The side condition under which the two passes stay in lockstep: no
`.org` directive aims below the number of bytes already emitted, and the
image never reaches 64 KiB. -/
def forwardOk (st : A2) : List Str → Bool
  | [] => true
  | l :: ls =>
    (match orgValue? l with
     | some v => decide (st.bytes.length ≤ wrap16i v)
     | none => true) &&
    (match pass2Line st l with
     | .ok st1 => decide (st1.bytes.length < 65536) && forwardOk st1 ls
     | .error _ => true)

theorem pass_agree (ls : List Str) : ∀ (pc : Nat) (sym : List (Str × Nat)) (st : A2),
    st.org = 0 → pc = st.bytes.length → st.bytes.length < 65536 →
    forwardOk st ls = true →
    ∀ (r1 : Nat × List (Str × Nat)) (st1 : A2),
      pass1Lines (pc, sym) ls = .ok r1 → pass2Lines st ls = .ok st1 →
      r1.1 = st1.bytes.length ∧ st1.bytes.length < 65536 ∧ st1.org = 0 := by
  induction ls with
  | nil =>
    intro pc sym st h0 hpc hsz hfwd r1 st1 h1 h2
    unfold pass1Lines at h1
    unfold pass2Lines at h2
    simp only [Except.ok.injEq] at h1 h2
    subst h1
    subst h2
    exact ⟨hpc, hsz, h0⟩
  | cons l ls ih =>
    intro pc sym st h0 hpc hsz hfwd r1 st1 h1 h2
    unfold pass1Lines at h1
    unfold pass2Lines at h2
    cases ha : pass1Line (pc, sym) l with
    | error e => rw [ha] at h1; cases h1
    | ok acc1 =>
      rw [ha] at h1
      cases hb : pass2Line st l with
      | error e => rw [hb] at h2; cases h2
      | ok stx =>
        rw [hb] at h2
        unfold forwardOk at hfwd
        rw [hb] at hfwd
        simp only [Bool.and_eq_true, decide_eq_true_eq] at hfwd
        obtain ⟨hfwd1, hszx, hfwdx⟩ := hfwd
        obtain ⟨ho, hcase⟩ :=
          lineStep_agree l pc sym st acc1.1 acc1.2 stx (by omega) (by simpa using ha) hb
        rcases hcase with ⟨v, hv, hpc1, hlen⟩ | ⟨hnone, d, hd1, hd2⟩
        · rw [hv] at hfwd1
          simp only [decide_eq_true_eq] at hfwd1
          rw [h0] at hlen
          rw [pad_target_of_zero_org (wrap16i v) (wrap16i_lt v)] at hlen
          refine ih acc1.1 acc1.2 stx (by omega) ?_ (by omega) hfwdx r1 st1 h1 h2
          omega
        · refine ih acc1.1 acc1.2 stx (by omega) ?_ (by omega) hfwdx r1 st1 h1 h2
          omega

/-- C2 (amended).  For a start state with origin 0 whose pass-1 pc equals
the bytes already emitted (in particular the initial state after `load`),
and an accepted line list in which no `.org` directive aims below the bytes
already emitted and the image stays under 2^16 bytes, the virtual pc at the
end of pass 1 equals the origin plus the final byte count of pass 2 — the
generalization over the start state gives the same equality at every line
boundary, so every label address recorded in pass 1 is the offset (plus
origin) at which pass 2 emits the corresponding line. -/
theorem two_pass_size_agree (ls : List Str) (pc : Nat) (sym : List (Str × Nat)) (st : A2)
    (horg : st.org = 0) (hpc : pc = st.bytes.length) (hsz : st.bytes.length < 65536)
    (hfwd : forwardOk st ls = true)
    (r1 : Nat × List (Str × Nat)) (st1 : A2)
    (h1 : pass1Lines (pc, sym) ls = .ok r1) (h2 : pass2Lines st ls = .ok st1) :
    r1.1 = st1.org + st1.bytes.length := by
  obtain ⟨ha, hb, hc⟩ := pass_agree ls pc sym st horg hpc hsz hfwd r1 st1 h1 h2
  omega

/-- C2 counterexample: the input `.word 1,2` / `.org 0` / `.word 5` is
accepted by both passes without error, yet pass 1 ends with virtual pc 2
while pass 2 ends with 6 emitted bytes and origin 0.  The backward `.org`
pads nothing, so the two passes lose lockstep. -/
theorem backward_org_breaks_two_pass :
    pass1Lines (0, []) [".word 1,2".data, ".org 0".data, ".word 5".data] = .ok (2, []) ∧
    pass2Lines ⟨0, 0, [], []⟩ [".word 1,2".data, ".org 0".data, ".word 5".data] =
      .ok ⟨0, 0, [1, 0, 2, 0, 5, 0], []⟩ ∧
    (2 : Nat) ≠ 0 + 6 := by
  refine ⟨rfl, rfl, by decide⟩

/-- A small well-formed program for the C2 witness. -/
def demoLines : List Str :=
  [".org 4".data, "start:".data, "ldi r0, start".data, "halt".data]

/-- Witness for C2 on `demoLines`: pass 1 ends at pc 10, pass 2 emits 10
bytes from origin 0. -/
theorem two_pass_size_agree_witness :
    pass1Lines (0, []) demoLines = .ok (10, [("start".data, 4)]) ∧
    pass2Lines ⟨0, 0, [], []⟩ demoLines =
      .ok ⟨4, 0, [0, 0, 0, 0, 0, 16, 0, 0, 0, 8], [(6, "start".data)]⟩ ∧
    (10 : Nat) = 0 + 10 :=
  ⟨rfl, rfl,
   two_pass_size_agree demoLines 0 [] ⟨0, 0, [], []⟩ rfl rfl (by decide) (by decide)
     (10, [("start".data, 4)]) ⟨4, 0, [0, 0, 0, 0, 0, 16, 0, 0, 0, 8], [(6, "start".data)]⟩
     rfl rfl⟩

theorem takeWhile_idem (p : Char → Bool) (l : Str) :
    (l.takeWhile p).takeWhile p = l.takeWhile p := by
  induction l with
  | nil => rfl
  | cons c cs ih =>
    by_cases h : p c
    · simp [List.takeWhile_cons, h, ih]
    · simp [List.takeWhile_cons, h]

theorem stripLine_takeWhile (raw : Str) :
    stripLine (raw.takeWhile fun c => c ≠ ';') = stripLine raw := by
  unfold stripLine
  rw [takeWhile_idem]

/-- C3 counterexample: in the line `.stringz "a;b"` the `;` sits inside a
quoted string, yet comment stripping truncates the line at it — the
retained content is `.stringz "a`, and pass 2 emits the bytes `[97, 0]`
(the string `a` with its terminator) instead of the bytes of `a;b`. -/
theorem semicolon_in_string_is_discarded :
    stripLine ".stringz \"a;b\"".data = ".stringz \"a".data ∧
    pass2Line ⟨0, 0, [], []⟩ ".stringz \"a;b\"".data = .ok ⟨0, 0, [97, 0], []⟩ :=
  ⟨rfl, rfl⟩

/-- C3 (amended).  Both passes truncate every line at the first `;`
wherever it occurs — `s.find(';')` has no quote awareness — so processing a
line is identical to processing its prefix before the first `;`, even when
that `;` lies inside a `"..."` string. -/
theorem comment_strip_ignores_quotes (raw : Str) (pc : Nat) (sym : List (Str × Nat))
    (st : A2) :
    pass1Line (pc, sym) raw = pass1Line (pc, sym) (raw.takeWhile fun c => c ≠ ';') ∧
    pass2Line st raw = pass2Line st (raw.takeWhile fun c => c ≠ ';') := by
  constructor
  · unfold pass1Line pass1Sym
    rw [stripLine_takeWhile]
  · unfold pass2Line
    rw [stripLine_takeWhile]

theorem resolveFixups_missing : ∀ (fixups : List (Nat × Str)) (bytes : List Nat)
    (sym : List (Str × Nat)),
    (∃ fx ∈ fixups, symFind sym fx.2 = none) →
    ∃ name, (∃ off, (off, name) ∈ fixups) ∧ symFind sym name = none ∧
      resolveFixups bytes fixups sym = .error ("undefined label: " ++ String.mk name) := by
  intro fixups
  induction fixups with
  | nil => intro bytes sym h; simp at h
  | cons hd tl ih =>
    intro bytes sym h
    obtain ⟨off0, name0⟩ := hd
    cases hf : symFind sym name0 with
    | none =>
      refine ⟨name0, ⟨off0, List.mem_cons_self _ _⟩, hf, ?_⟩
      unfold resolveFixups
      rw [hf]
    | some a =>
      obtain ⟨fx, hfx, hnone⟩ := h
      rcases List.mem_cons.mp hfx with heq | hfx2
      · subst heq
        simp only at hnone
        rw [hnone] at hf
        cases hf
      · obtain ⟨nm, ⟨o2, hmem⟩, hn, hres⟩ := ih _ sym ⟨fx, hfx2, hnone⟩
        refine ⟨nm, ⟨o2, List.mem_cons_of_mem _ hmem⟩, hn, ?_⟩
        unfold resolveFixups
        rw [hf]
        exact hres

theorem resolveFixups_ok : ∀ (fixups : List (Nat × Str)) (bytes : List Nat)
    (sym : List (Str × Nat)),
    (∀ fx ∈ fixups, symFind sym fx.2 ≠ none) →
    ∃ out, resolveFixups bytes fixups sym = .ok out ∧ out.length = bytes.length := by
  intro fixups
  induction fixups with
  | nil => intro bytes sym h; exact ⟨bytes, rfl, rfl⟩
  | cons hd tl ih =>
    intro bytes sym h
    obtain ⟨off0, name0⟩ := hd
    cases hf : symFind sym name0 with
    | none => exact absurd hf (h (off0, name0) (List.mem_cons_self _ _))
    | some a =>
      obtain ⟨out, hres, hlen⟩ :=
        ih ((bytes.set off0 (a &&& 0xFF)).set (off0 + 1) ((a >>> 8) &&& 0xFF)) sym
          (fun fx hfx => h fx (List.mem_cons_of_mem _ hfx))
      refine ⟨out, ?_, ?_⟩
      · unfold resolveFixups
        rw [hf]
        exact hres
      · rw [hlen]
        simp [List.length_set]

theorem resolveFixups_keeps_low : ∀ (fixups : List (Nat × Str)) (bytes : List Nat)
    (sym : List (Str × Nat)) (out : List Nat) (j : Nat),
    (∀ fx ∈ fixups, j + 1 < fx.1) →
    resolveFixups bytes fixups sym = .ok out →
    out[j]? = bytes[j]? ∧ out[j + 1]? = bytes[j + 1]? := by
  intro fixups
  induction fixups with
  | nil => intro bytes sym out j hsep hres; cases hres; exact ⟨rfl, rfl⟩
  | cons hd tl ih =>
    intro bytes sym out j hsep hres
    obtain ⟨off0, name0⟩ := hd
    unfold resolveFixups at hres
    cases hf : symFind sym name0 with
    | none => rw [hf] at hres; cases hres
    | some a =>
      rw [hf] at hres
      have hj : j + 1 < off0 := hsep (off0, name0) (List.mem_cons_self _ _)
      obtain ⟨h1, h2⟩ := ih _ sym out j (fun fx hfx => hsep fx (List.mem_cons_of_mem _ hfx)) hres
      rw [h1, h2,
        List.getElem?_set_ne (by omega : off0 + 1 ≠ j),
        List.getElem?_set_ne (by omega : off0 ≠ j),
        List.getElem?_set_ne (by omega : off0 + 1 ≠ j + 1),
        List.getElem?_set_ne (by omega : off0 ≠ j + 1)]
      exact ⟨rfl, rfl⟩

theorem resolveFixups_patch : ∀ (fixups : List (Nat × Str)) (bytes : List Nat)
    (sym : List (Str × Nat)) (out : List Nat),
    List.Pairwise (fun a b => a.1 + 2 ≤ b.1) fixups →
    (∀ fx ∈ fixups, fx.1 + 1 < bytes.length) →
    resolveFixups bytes fixups sym = .ok out →
    ∀ off name a, (off, name) ∈ fixups → symFind sym name = some a →
      out[off]? = some (a &&& 0xFF) ∧ out[off + 1]? = some ((a >>> 8) &&& 0xFF) := by
  intro fixups
  induction fixups with
  | nil =>
    intro bytes sym out hp hin hres off name a hmem hfind
    simp at hmem
  | cons hd tl ih =>
    intro bytes sym out hp hin hres off name a hmem hfind
    obtain ⟨off0, name0⟩ := hd
    unfold resolveFixups at hres
    cases hf : symFind sym name0 with
    | none => rw [hf] at hres; cases hres
    | some a0 =>
      rw [hf] at hres
      rcases List.mem_cons.mp hmem with heq | hmem2
      · obtain ⟨rfl, rfl⟩ := Prod.mk.injEq .. ▸ heq
        have ha0 : a0 = a := by rw [hfind] at hf; cases hf; rfl
        subst ha0
        have hlen : off + 1 < bytes.length := hin (off, name) (List.mem_cons_self _ _)
        have hsep : ∀ fx ∈ tl, off + 1 < fx.1 := by
          intro fx hfx
          have := (List.pairwise_cons.mp hp).1 fx hfx
          omega
        obtain ⟨h1, h2⟩ := resolveFixups_keeps_low tl _ sym out off hsep hres
        rw [h1, h2]
        constructor
        · rw [List.getElem?_set_ne (by omega : off + 1 ≠ off)]
          exact List.getElem?_set_self (by omega)
        · exact List.getElem?_set_self (by simp [List.length_set]; omega)
      · exact ih _ sym out (List.pairwise_cons.mp hp).2
          (fun fx hfx => by have := hin fx (List.mem_cons_of_mem _ hfx); simp [List.length_set]; omega)
          hres off name a hmem2 hfind

/-- C6.  Fixup resolution: if any recorded fixup names a symbol absent from
the symbol table, resolution fails with `undefined label: <name>` for such a
missing symbol and no byte vector is produced; if every fixup's symbol is
defined, resolution succeeds with an image of unchanged size, and (for
fixups at distinct, in-bounds offsets) each fixup offset holds the low byte
of the symbol's address and the next offset its high byte.  End to end,
assembling `JMP nowhere` with `nowhere` undefined yields exactly
`undefined label: nowhere`. -/
theorem fixup_resolution :
    (∀ (bytes : List Nat) (fixups : List (Nat × Str)) (sym : List (Str × Nat)),
      (∃ fx ∈ fixups, symFind sym fx.2 = none) →
      ∃ name, (∃ off, (off, name) ∈ fixups) ∧ symFind sym name = none ∧
        resolveFixups bytes fixups sym = .error ("undefined label: " ++ String.mk name)) ∧
    (∀ (bytes : List Nat) (fixups : List (Nat × Str)) (sym : List (Str × Nat)),
      (∀ fx ∈ fixups, symFind sym fx.2 ≠ none) →
      ∃ out, resolveFixups bytes fixups sym = .ok out ∧ out.length = bytes.length) ∧
    (∀ (bytes : List Nat) (fixups : List (Nat × Str)) (sym : List (Str × Nat)) (out : List Nat),
      List.Pairwise (fun a b => a.1 + 2 ≤ b.1) fixups →
      (∀ fx ∈ fixups, fx.1 + 1 < bytes.length) →
      resolveFixups bytes fixups sym = .ok out →
      ∀ off name a, (off, name) ∈ fixups → symFind sym name = some a →
        out[off]? = some (a &&& 0xFF) ∧ out[off + 1]? = some ((a >>> 8) &&& 0xFF)) ∧
    assembleLines ["JMP nowhere".data] = .error "undefined label: nowhere" :=
  ⟨fun bytes fixups sym => resolveFixups_missing fixups bytes sym,
   fun bytes fixups sym => resolveFixups_ok fixups bytes sym,
   fun bytes fixups sym => resolveFixups_patch fixups bytes sym, rfl⟩

theorem fixup_resolution_witness :
    resolveFixups [9, 9, 9, 9] [(1, "x".data)] [("x".data, 0x1234)] = .ok [9, 0x34, 0x12, 9] ∧
    [9, 0x34, 0x12, 9][1]? = some (0x1234 &&& 0xFF) ∧
    [9, 0x34, 0x12, 9][2]? = some ((0x1234 >>> 8) &&& 0xFF) := by
  have h := fixup_resolution.2.2.1 [9, 9, 9, 9] [(1, "x".data)] [("x".data, 0x1234)]
    [9, 0x34, 0x12, 9] (by simp)
    (by intro fx hfx; rw [List.mem_singleton] at hfx; subst hfx; decide)
    rfl 1 "x".data 0x1234 (List.mem_singleton.mpr rfl) rfl
  exact ⟨rfl, h.1, h.2⟩

theorem contentStep2_org (st : A2) (s : Str) (st1 : A2)
    (h : contentStep2 st s = .ok st1) : st1.org = st.org := by
  unfold contentStep2 at h
  split at h
  · split at h
    · cases h; rfl
    · cases h
  · split at h
    · cases h
      exact (wordFold_spec _ st).1
    · split at h
      · cases h
        exact (stringzFold_spec _ st).1
      · exact (instrStep_size _ _ _ _ h).1

theorem pass2Line_org (st : A2) (raw : Str) (st1 : A2)
    (h : pass2Line st raw = .ok st1) : st1.org = st.org := by
  unfold pass2Line at h
  split at h
  · cases h; rfl
  · split at h
    · cases h; rfl
    · exact contentStep2_org _ _ _ h

theorem pass2Lines_org : ∀ (ls : List Str) (st : A2) (st1 : A2),
    pass2Lines st ls = .ok st1 → st1.org = st.org := by
  intro ls
  induction ls with
  | nil => intro st st1 h; cases h; rfl
  | cons l ls ih =>
    intro st st1 h
    unfold pass2Lines at h
    cases hl : pass2Line st l with
    | error e => rw [hl] at h; cases h
    | ok st2 =>
      rw [hl] at h
      rw [ih st2 st1 h]
      exact pass2Line_org _ _ _ hl

/-- C10.  Byte offsets in the output image are absolute addresses: `load`
sets `org = 0` and pass 2 never changes it; consequently `.org V` pads the
image to offset `V` itself (from a zero-origin state the padded length is
`max` of the current length and the 16-bit target, and `pc` becomes the
target); and fixup resolution writes the symbol's absolute address
little-endian directly at the recorded byte offset. -/
theorem offset_is_address :
    (∀ text : Str, (load text).2.org = 0) ∧
    (∀ (st : A2) (ls : List Str) (st1 : A2),
      pass2Lines st ls = .ok st1 → st1.org = st.org) ∧
    (∀ (st : A2) (v : Int), st.org = 0 →
      (orgStep st v).bytes.length = max st.bytes.length (wrap16i v) ∧
      (orgStep st v).pc = wrap16i v) ∧
    (∀ (bytes : List Nat) (sym : List (Str × Nat)) (off : Nat) (name : Str) (a : Nat),
      symFind sym name = some a →
      resolveFixups bytes [(off, name)] sym =
        .ok ((bytes.set off (a &&& 0xFF)).set (off + 1) ((a >>> 8) &&& 0xFF))) := by
  refine ⟨fun text => rfl, fun st ls st1 h => pass2Lines_org ls st st1 h, ?_, ?_⟩
  · intro st v h0
    refine ⟨?_, rfl⟩
    show (st.bytes ++
      List.replicate
        ((((wrap16i v : Int) - (st.org : Int)) % 18446744073709551616).toNat - st.bytes.length)
        0).length = _
    rw [h0]
    rw [pad_target_of_zero_org _ (wrap16i_lt v)]
    simp [List.length_append, List.length_replicate]
    omega
  · intro bytes sym off name a hf
    unfold resolveFixups
    rw [hf]
    rfl

theorem offset_is_address_witness :
    (load "halt".data).2.org = 0 ∧
    (orgStep ⟨3, 0, [7], []⟩ 5).bytes.length = max 1 (wrap16i 5) ∧
    (orgStep ⟨3, 0, [7], []⟩ 5).pc = wrap16i 5 ∧
    resolveFixups [0, 0] [(0, "x".data)] [("x".data, 0x1234)] =
      .ok (([0, 0].set 0 (0x1234 &&& 0xFF)).set 1 ((0x1234 >>> 8) &&& 0xFF)) := by
  have h3 := offset_is_address.2.2.1 ⟨3, 0, [7], []⟩ 5 rfl
  have h4 := offset_is_address.2.2.2 [0, 0] [("x".data, 0x1234)] 0 "x".data 0x1234 rfl
  exact ⟨offset_is_address.1 "halt".data, h3.1, h3.2, h4⟩

theorem pass1Lines_cons (acc : Nat × List (Str × Nat)) (l : Str) (ls : List Str) :
    pass1Lines acc (l :: ls) =
      match pass1Line acc l with
      | .ok acc1 => pass1Lines acc1 ls
      | .error e => .error e := rfl

theorem pass2Lines_cons (st : A2) (l : Str) (ls : List Str) :
    pass2Lines st (l :: ls) =
      match pass2Line st l with
      | .ok st1 => pass2Lines st1 ls
      | .error e => .error e := rfl

theorem pass1Lines_append : ∀ (xs ys : List Str) (acc : Nat × List (Str × Nat)),
    pass1Lines acc (xs ++ ys) =
      match pass1Lines acc xs with
      | .ok acc1 => pass1Lines acc1 ys
      | .error e => .error e := by
  intro xs
  induction xs with
  | nil => intro ys acc; rfl
  | cons l ls ih =>
    intro ys acc
    rw [List.cons_append, pass1Lines_cons, pass1Lines_cons]
    cases hl : pass1Line acc l with
    | error e => rfl
    | ok acc1 =>
      dsimp only
      exact ih ys acc1

theorem pass2Lines_append : ∀ (xs ys : List Str) (st : A2),
    pass2Lines st (xs ++ ys) =
      match pass2Lines st xs with
      | .ok st1 => pass2Lines st1 ys
      | .error e => .error e := by
  intro xs
  induction xs with
  | nil => intro ys st; rfl
  | cons l ls ih =>
    intro ys st
    rw [List.cons_append, pass2Lines_cons, pass2Lines_cons]
    cases hl : pass2Line st l with
    | error e => rfl
    | ok st1 =>
      dsimp only
      exact ih ys st1

theorem pass1Line_org (raw : Str) (v : Int) (pc : Nat) (sym : List (Str × Nat))
    (hv : orgValue? raw = some v) (hlab : lineLabel (stripLine raw) = none) :
    pass1Line (pc, sym) raw = .ok (wrap16i v, sym) := by
  unfold orgValue? at hv
  unfold pass1Line
  split at hv
  · cases hv
  · next hne =>
    rw [if_neg hne]
    cases hcont : lineContent (stripLine raw) with
    | none => rw [hcont] at hv; cases hv
    | some c =>
      rw [hcont] at hv
      dsimp only at hv ⊢
      split at hv
      · next horg =>
        have hsym : pass1Sym (pc, sym) raw = sym := by
          unfold pass1Sym
          rw [hlab]
        unfold contentStep1
        rw [if_pos horg, hv]
        dsimp only
        rw [hsym]
      · cases hv

theorem pass2Line_org_eq (raw : Str) (v : Int) (st : A2)
    (hv : orgValue? raw = some v) :
    pass2Line st raw = .ok (orgStep st v) := by
  unfold orgValue? at hv
  unfold pass2Line
  split at hv
  · cases hv
  · next hne =>
    rw [if_neg hne]
    cases hcont : lineContent (stripLine raw) with
    | none => rw [hcont] at hv; cases hv
    | some c =>
      rw [hcont] at hv
      dsimp only at hv ⊢
      split at hv
      · next horg =>
        unfold contentStep2
        rw [if_pos horg, hv]
      · cases hv

theorem orgStep_orgStep (st : A2) (A B : Int) (h0 : st.org = 0)
    (hAB : wrap16i A ≤ wrap16i B) :
    orgStep (orgStep st A) B = orgStep st B := by
  unfold orgStep
  dsimp only
  rw [h0, pad_target_of_zero_org _ (wrap16i_lt A), pad_target_of_zero_org _ (wrap16i_lt B)]
  simp only [A2.mk.injEq, List.append_assoc, ← List.replicate_add, List.length_append,
    List.length_replicate, true_and, and_true]
  have hc : (wrap16i A - st.bytes.length) +
      (wrap16i B - (st.bytes.length + (wrap16i A - st.bytes.length))) =
      wrap16i B - st.bytes.length := by omega
  rw [hc]

/-- C8.  `.org` idempotence: a `.org A` line immediately followed by
`.org B`, with the 16-bit target of `B` at least that of `A` and at or
beyond the image size after the preceding lines, assembles exactly like
`.org B` alone — pass 1 produces the same result (in particular the same
symbol table) and the full assembly produces the same output image. -/
theorem org_org_idempotent (pre post : List Str) (l1 l2 : Str) (A B : Int)
    (h1 : orgValue? l1 = some A) (hlab1 : lineLabel (stripLine l1) = none)
    (h2 : orgValue? l2 = some B) (hlab2 : lineLabel (stripLine l2) = none)
    (hAB : wrap16i A ≤ wrap16i B)
    (hsize : ∀ stp : A2, pass2Lines ⟨0, 0, [], []⟩ pre = .ok stp →
      stp.bytes.length ≤ wrap16i B) :
    pass1Lines (0, []) (pre ++ l1 :: l2 :: post) =
      pass1Lines (0, []) (pre ++ l2 :: post) ∧
    assembleLines (pre ++ l1 :: l2 :: post) = assembleLines (pre ++ l2 :: post) := by
  have hp1 : pass1Lines (0, []) (pre ++ l1 :: l2 :: post) =
      pass1Lines (0, []) (pre ++ l2 :: post) := by
    rw [pass1Lines_append, pass1Lines_append]
    cases hpre : pass1Lines (0, []) pre with
    | error e => rfl
    | ok acc =>
      obtain ⟨pc, sym⟩ := acc
      dsimp only
      rw [pass1Lines_cons, pass1Line_org l1 A pc sym h1 hlab1]
      dsimp only
      rw [pass1Lines_cons, pass1Lines_cons,
        pass1Line_org l2 B (wrap16i A) sym h2 hlab2,
        pass1Line_org l2 B pc sym h2 hlab2]
  have hp2 : pass2Lines ⟨0, 0, [], []⟩ (pre ++ l1 :: l2 :: post) =
      pass2Lines ⟨0, 0, [], []⟩ (pre ++ l2 :: post) := by
    rw [pass2Lines_append, pass2Lines_append]
    cases hpre : pass2Lines ⟨0, 0, [], []⟩ pre with
    | error e => rfl
    | ok stp =>
      have horg : stp.org = 0 := pass2Lines_org pre _ stp hpre
      dsimp only
      rw [pass2Lines_cons, pass2Line_org_eq l1 A stp h1]
      dsimp only
      rw [pass2Lines_cons, pass2Lines_cons,
        pass2Line_org_eq l2 B (orgStep stp A) h2, pass2Line_org_eq l2 B stp h2]
      dsimp only
      rw [orgStep_orgStep stp A B horg hAB]
  refine ⟨hp1, ?_⟩
  unfold assembleLines
  rw [hp1, hp2]

theorem org_org_idempotent_witness :
    pass1Lines (0, []) ([".word 1".data] ++ ".org 4".data :: ".org 6".data :: ["halt".data]) =
      pass1Lines (0, []) ([".word 1".data] ++ ".org 6".data :: ["halt".data]) ∧
    assembleLines ([".word 1".data] ++ ".org 4".data :: ".org 6".data :: ["halt".data]) =
      assembleLines ([".word 1".data] ++ ".org 6".data :: ["halt".data]) :=
  org_org_idempotent [".word 1".data] ["halt".data] ".org 4".data ".org 6".data 4 6
    rfl rfl rfl rfl (by decide)
    (by intro stp h
        rw [show pass2Lines ⟨0, 0, [], []⟩ [".word 1".data] =
          Except.ok (A2.mk 0 0 [1, 0] []) from rfl] at h
        injection h with h
        subst h
        decide)

end Tiny16
